import Mathlib

/-!
# Host DMA streaming engine (`src/audio/host.c`) and completion wait (`include/sof/wait.h`)

A shallow embedding of the host component of the audio pipeline and of the
completion/timeout primitive it blocks on.

Conventions of the embedding

* `uint32_t` values are natural numbers; every arithmetic result stored in a
  `uint32_t` is reduced with `u32`.
* A `struct list_head *` that points into the ring of an `hc_buf` is a
  `list_ptr`: either the list head embedded in the `hc_buf` itself or the
  node of the `i`-th element in list order.  The ring of a list with `n`
  elements therefore has `n + 1` nodes.
* Undefined behaviour of the C code (division by zero, following a dangling
  pointer, a store through a null pointer, signed overflow) is the result
  `none`.
* Calls into collaborators that are not part of these sources (DMA driver,
  work queue, host memory) are recorded, in program order, as a `List call`.
-/

namespace Sof

/-! ## Machine integers and constants -/

/-- Reduction of a value stored in a `uint32_t`. -/
def u32 (x : Nat) : Nat := x % 4294967296

/-- Largest value of an `int`. -/
def INT_MAX : Nat := 2147483647

/-- Conversion of a `uint32_t` value to `int` (two's complement). -/
def to_int (x : Nat) : Int :=
  if u32 x ≤ INT_MAX then (u32 x : Int) else (u32 x : Int) - 4294967296

/-- Value of `EIO` in `errno.h`. -/
def EIO : Int := 5
/-- Value of `ENOMEM` in `errno.h`. -/
def ENOMEM : Int := 12
/-- Value of `EINVAL` in `errno.h`. -/
def EINVAL : Int := 22
/-- Value of `ETIME` in `errno.h`. -/
def ETIME : Int := 62

/-- Stream direction constant of `reef/stream.h`; every other value of the
direction field takes the capture branch of the code. -/
def STREAM_DIRECTION_PLAYBACK : Nat := 0
/-- Stream direction constant of `reef/stream.h`. -/
def STREAM_DIRECTION_CAPTURE : Nat := 1
/-- Memory to memory transfer, constant of `reef/dma.h`. -/
def DMA_DIR_MEM_TO_MEM : Nat := 0

/-! ## Data model -/

/-- The payload of a `struct dma_sg_elem`: one DMA segment. -/
structure dma_sg_elem where
  src : Nat
  dest : Nat
  size : Nat
deriving DecidableEq, Repr

/-- A `struct list_head *` into the ring of one list: the head that is embedded
in the owner of the list, or the node of the `i`-th element. -/
inductive list_ptr where
  | head
  | item (i : Nat)
deriving DecidableEq, Repr

/-- The `struct hc_buf` of host.c: element list, cursor and end marker. -/
structure hc_buf where
  elem_list : List dma_sg_elem
  current : list_ptr
  current_end : Nat
deriving DecidableEq, Repr

/-- The `struct period_desc` read through `hd->period`. -/
structure period_desc where
  size : Nat
  number : Nat
deriving DecidableEq, Repr

/-- The `struct stream_params`; only `direction` is read by host.c, `pcm`
stands for the remaining fields that are copied along. -/
structure stream_params where
  direction : Nat
  pcm : Nat
deriving DecidableEq, Repr

/-- The fields of `struct comp_buffer` used by host.c.  `self` is the address
of the structure itself, the value of `(uint32_t)hd->dma_buffer`; `addr` is the
base address of its data area. -/
structure comp_buffer where
  self : Nat
  addr : Nat
  r_ptr : Nat
  w_ptr : Nat
  free : Nat
  avail : Nat
  source_period : period_desc
  sink_period : period_desc
  params : stream_params
deriving DecidableEq, Repr

/-- The `struct dma_sg_config` of the engine.  Its `elem_list` holds the single
local transfer descriptor that `host_new` adds and nothing else, so the list is
represented by that one element. -/
structure dma_sg_config where
  elem : dma_sg_elem
  direction : Nat
  src_width : Nat
  dest_width : Nat
  cyclic : Nat
deriving DecidableEq, Repr

/-- The `completion_t` of wait.h.  The embedded `struct work` belongs to the
work queue; operations on it appear as `call`s. -/
structure completion_t where
  complete : Nat
  timeout : Nat
deriving DecidableEq, Repr

/-- Target of `hd->dma_buffer`: first buffer of `dev->bsink_list` or first
buffer of `dev->bsource_list`. -/
inductive buf_ref where
  | bsink
  | bsource
deriving DecidableEq, Repr

/-- Target of `hd->period`: a period descriptor inside one of the buffers. -/
inductive period_ref where
  | source_period (b : buf_ref)
  | sink_period (b : buf_ref)
deriving DecidableEq, Repr

/-- Target of `hd->source` and `hd->sink`. -/
inductive hc_ref where
  | host
  | loc
deriving DecidableEq, Repr

/-- The `struct host_data`.  The DMA controller handle and channel number never
change after `host_new` and are left out; `loc` is the field `local`. -/
structure host_data where
  config : dma_sg_config
  complete : completion_t
  period : period_ref
  dma_buffer : buf_ref
  host : hc_buf
  loc : hc_buf
  host_size : Nat
  host_pos : Nat
  source : hc_ref
  sink : hc_ref
  params : stream_params
deriving DecidableEq, Repr

/-- The component device: its private data and the first buffer of each of its
buffer lists. -/
structure comp_dev where
  hd : host_data
  bsink : comp_buffer
  bsource : comp_buffer
deriving DecidableEq, Repr

/-- A call that leaves host.c or wait.h. -/
inductive call where
  | dma_set_config (config : dma_sg_config)
  | dma_start
  | dma_pause
  | dma_stop
  | dma_release
  | dma_drain
  | dma_status
  | work_init
  | work_schedule_default (timeout : Nat)
  | work_cancel_default
  | wait_for_interrupt
  | wait_delay (clks : Nat)
  | store (addr : Nat) (value : Nat)
deriving DecidableEq, Repr

/-! ## Accessors for the pointers held in `host_data` -/

/-- Dereference of `hd->dma_buffer`. -/
def comp_dev.dma_buffer (dev : comp_dev) : comp_buffer :=
  match dev.hd.dma_buffer with
  | .bsink => dev.bsink
  | .bsource => dev.bsource

/-- Store through `hd->dma_buffer`. -/
def comp_dev.set_dma_buffer (dev : comp_dev) (b : comp_buffer) : comp_dev :=
  match dev.hd.dma_buffer with
  | .bsink => { dev with bsink := b }
  | .bsource => { dev with bsource := b }

/-- Dereference of a buffer reference. -/
def comp_dev.buffer (dev : comp_dev) : buf_ref → comp_buffer
  | .bsink => dev.bsink
  | .bsource => dev.bsource

/-- Dereference of `hd->period`. -/
def comp_dev.period (dev : comp_dev) : period_desc :=
  match dev.hd.period with
  | .source_period b => (dev.buffer b).source_period
  | .sink_period b => (dev.buffer b).sink_period

/-- Dereference of an `hc_buf` pointer. -/
def host_data.hc (hd : host_data) : hc_ref → hc_buf
  | .host => hd.host
  | .loc => hd.loc

/-- Store through an `hc_buf` pointer. -/
def host_data.set_hc (hd : host_data) (r : hc_ref) (b : hc_buf) : host_data :=
  match r with
  | .host => { hd with host := b }
  | .loc => { hd with loc := b }

/-! ## Intrusive lists (`reef/list.h`) -/

/-- Modelled from the spec: `reef/list.h` is not part of the sources.  The spec
describes intrusive circular linked lists; in such a ring the successor of the
head is the first element and the successor of the last element is the head.
A pointer past the end of the list is dangling and following it is undefined. -/
def list_next (l : List dma_sg_elem) : list_ptr → Option list_ptr
  | .head => some (if l.length = 0 then .head else .item 0)
  | .item i =>
    if i + 1 < l.length then some (.item (i + 1))
    else if i + 1 = l.length then some .head
    else none

/-- Modelled from the spec: the macro `list_first_entry(ptr, type, member)` of
reef/list.h, that is `container_of((ptr)->next, type, member)`.  The result is
the pointer to the enclosing element, identified by its node. -/
def list_first_entry (l : List dma_sg_elem) (ptr : list_ptr) : Option list_ptr :=
  list_next l ptr

/-- Read of the fields of the element that encloses a list node.  The head of a
list is not enclosed in any element: reading through it yields the words that
happen to lie around the head, given by `overlay`. -/
def elem_at (l : List dma_sg_elem) (overlay : dma_sg_elem) : list_ptr → Option dma_sg_elem
  | .head => some overlay
  | .item i => l[i]?

/-- Modelled from the spec: `list_add(new, head)` of reef/list.h inserts the new
node right after the head, in front of the first element.  Nodes keep their
identity, so a cursor on the `i`-th element is on the `i + 1`-th afterwards. -/
def list_add (e : dma_sg_elem) (hc : hc_buf) : hc_buf :=
  { hc with
    elem_list := e :: hc.elem_list
    current := match hc.current with
      | .head => .head
      | .item i => .item (i + 1) }

/-- Modelled from the spec: `list_add_tail(new, head)` of reef/list.h inserts the
new node right before the head, after the last element. -/
def list_add_tail (e : dma_sg_elem) (hc : hc_buf) : hc_buf :=
  { hc with elem_list := hc.elem_list ++ [e] }

/-- The loop `list_for_each_safe` with `list_del` and `rfree` on every element:
the list is empty afterwards.  The cursor is not touched by the code. -/
def list_free_all (hc : hc_buf) : hc_buf :=
  { hc with elem_list := [] }

/-! ## host.c -/

/-- The function `next_buffer`: the entry after the cursor, which becomes the
cursor.  The result is the returned element pointer and the updated list. -/
def next_buffer (hc : hc_buf) : Option (list_ptr × hc_buf) :=
  match list_first_entry hc.elem_list hc.current with
  | none => none
  | some elem => some (elem, { hc with current := elem })

/-- The function `host_new`.  The three allocations give a null pointer (`false`,
`none`) or fresh memory with its prior content; `chan` is the result of
`dma_channel_get`.  `bsink` and `bsource` are the buffers that the pipeline
connects to the new component.  A null result is `none`. -/
def host_new (rmalloc_dev : Bool) (rmalloc_hd : Option host_data)
    (rmalloc_elem : Option dma_sg_elem) (chan : Int) (bsink bsource : comp_buffer) :
    Option comp_dev :=
  if rmalloc_dev = false then none
  else
    match rmalloc_hd with
    | none => none
    | some hd =>
      match rmalloc_elem with
      | none => none
      | some elem =>
        let hd := { hd with host_size := 0 }
        -- init buffer elems
        let hd := { hd with
          config := { hd.config with elem := elem }
          host := { hd.host with elem_list := [] }
          loc := { hd.loc with elem_list := [] } }
        -- get DMA channel from DMAC0
        if chan < 0 then none
        else some { hd := hd, bsink := bsink, bsource := bsource }

/-- The function `host_buffer`.  `rmalloc` is the outcome of the allocation:
`none` for a null pointer, otherwise the prior content of the fresh element,
which `*e = *elem` overwrites. -/
def host_buffer (dev : comp_dev) (elem : dma_sg_elem) (rmalloc : Option dma_sg_elem) :
    Int × comp_dev :=
  match rmalloc with
  | none => (-ENOMEM, dev)
  | some _ =>
    let e := elem
    if dev.hd.host_size ≠ 0 ∧ dev.hd.host_size ≠ e.size then
      (-EINVAL, dev)
    else
      (0, { dev with hd := { dev.hd with
              host_size := e.size
              host := list_add_tail e dev.hd.host } })

/-- The words read when the head of the host list and the head of the local
list are taken for elements (see `elem_at`). -/
structure overlays where
  host : dma_sg_elem
  loc : dma_sg_elem
deriving DecidableEq, Repr

/-- Selection of the overlay of one of the two lists. -/
def overlays.of (o : overlays) : hc_ref → dma_sg_elem
  | .host => o.host
  | .loc => o.loc

/-- The loop of `create_local_elems`: `k` iterations remain and `i` is the loop
variable.  `rmalloc i` is the outcome of the allocation of iteration `i`: `none`
for a null pointer, otherwise the prior content of the fresh element.  The
result is `some (some l)` when the loop ran to its end, `some none` on the jump
to `unwind`, and `none` when `i++` overflows the `int`. -/
def create_local_elems_loop (rmalloc : Nat → Option dma_sg_elem) (direction : Nat)
    (base size : Nat) : Nat → Nat → hc_buf → Option (Option hc_buf)
  | 0, _, l => some (some l)
  | k + 1, i, l =>
    match rmalloc i with
    | none => some none
    | some e =>
      let e : dma_sg_elem :=
        if direction = STREAM_DIRECTION_PLAYBACK then
          { e with dest := u32 (base + u32 (i * size)) }
        else
          { e with src := u32 (base + u32 (i * size)) }
      let e : dma_sg_elem := { e with size := size }
      let l := list_add e l
      if i + 1 ≤ INT_MAX then create_local_elems_loop rmalloc direction base size k (i + 1) l
      else none

/-- The function `create_local_elems`. -/
def create_local_elems (dev : comp_dev) (params : stream_params)
    (rmalloc : Nat → Option dma_sg_elem) : Option (Int × comp_dev) :=
  match create_local_elems_loop rmalloc params.direction dev.dma_buffer.self
      dev.period.size dev.period.number 0 dev.hd.loc with
  | none => none
  | some (some l) => some (0, { dev with hd := { dev.hd with loc := l } })
  | some none =>
    some (-ENOMEM, { dev with hd := { dev.hd with loc := list_free_all dev.hd.loc } })

/-- Modelled from the spec: `comp_set_sink_params` of reef/audio/component.h is
not part of the sources; it hands the stream parameters to the buffers on the
sink side of the component. -/
def comp_set_sink_params (dev : comp_dev) (params : stream_params) : comp_dev :=
  { dev with bsink := { dev.bsink with params := params } }

/-- The part of `host_params` that follows the size check and the creation of
the local elements: buffer pointers, DMA configuration, cursors, end markers
and the local descriptor. -/
def host_params_setup (dev : comp_dev) (ov : overlays) : Option (Int × comp_dev) := do
  let b := dev.dma_buffer
  let dev := dev.set_dma_buffer { b with r_ptr := b.addr, w_ptr := b.addr }
  let hd := dev.hd
  let hd := { hd with config := { hd.config with
                direction := DMA_DIR_MEM_TO_MEM, src_width := 4, dest_width := 4, cyclic := 0 } }
  -- setup elem to point to first source elem
  let source := hd.hc hd.source
  let p ← list_first_entry source.elem_list .head
  let source_elem ← elem_at source.elem_list (ov.of hd.source) p
  let hd := hd.set_hc hd.source
    { source with current := p, current_end := u32 (source_elem.dest + source_elem.size) }
  -- setup elem to point to first sink elem
  let sink := hd.hc hd.sink
  let p ← list_first_entry sink.elem_list .head
  let sink_elem ← elem_at sink.elem_list (ov.of hd.sink) p
  let hd := hd.set_hc hd.sink
    { sink with current := p, current_end := u32 (sink_elem.dest + sink_elem.size) }
  -- local element
  let local_elem : dma_sg_elem :=
    { dest := sink_elem.dest, size := ({ dev with hd := hd }).period.size, src := source_elem.src }
  let hd := { hd with config := { hd.config with elem := local_elem } }
  some (0, { dev with hd := hd })

/-- The first part of `host_params`: the parameters are stored and handed to
the sink buffers, and the source, sink, buffer and period pointers are bound
according to the direction. -/
def host_params_bind (dev : comp_dev) (params : stream_params) : comp_dev :=
  -- set params
  let dev := { dev with hd := { dev.hd with params := params } }
  let dev := comp_set_sink_params dev params
  -- determine source and sink buffer elems
  if params.direction = STREAM_DIRECTION_PLAYBACK then
    { dev with hd := { dev.hd with
        source := .host, sink := .loc, dma_buffer := .bsink, period := .source_period .bsink } }
  else
    { dev with hd := { dev.hd with
        source := .loc, sink := .host, dma_buffer := .bsource, period := .sink_period .bsource } }

/-- The function `host_params`.  A period size of zero makes the size check
divide by zero. -/
def host_params (dev : comp_dev) (params : stream_params)
    (rmalloc : Nat → Option dma_sg_elem) (ov : overlays) : Option (Int × comp_dev) :=
  let dev := host_params_bind dev params
  -- component buffer size must be divisor of host buffer size
  if dev.period.size = 0 then none
  else if dev.hd.host_size % dev.period.size ≠ 0 then some (-EINVAL, dev)
  else
    -- create SG DMA elems for local DMA buffer
    match create_local_elems dev params rmalloc with
    | none => none
    | some (err, dev) =>
      if err < 0 then some (err, dev)
      else host_params_setup dev ov

/-! ## wait.h -/

/-- The timeout callback `_wait_cb`. -/
def _wait_cb (wc : completion_t) : completion_t :=
  { wc with timeout := 1 }

/-- The function `wait_is_completed`. -/
def wait_is_completed (c : completion_t) : Nat :=
  c.complete

/-- The function `wait_completed`. -/
def wait_completed (c : completion_t) : completion_t :=
  { c with complete := 1 }

/-- The function `wait_init`. -/
def wait_init (c : completion_t) : completion_t × List call :=
  ({ c with complete := 0 }, [.work_init])

/-- The function `wait_clear`. -/
def wait_clear (c : completion_t) : completion_t :=
  { c with complete := 0 }

/-- The setting in which a completion object is waited on: the state `σ` that
holds it, and the interrupt handler that runs for an interrupt source `ι`. -/
structure wait_ctx (σ ι : Type) where
  comp : σ → completion_t
  set_comp : σ → completion_t → σ
  isr : ι → σ → Option (σ × List call)

/-- The handlers of a batch of interrupts, in the order in which they ran. -/
def run_isrs {σ ι : Type} (E : wait_ctx σ ι) : List ι → σ → Option (σ × List call)
  | [], s => some (s, [])
  | q :: qs, s =>
    match E.isr q s with
    | none => none
    | some (s, l) =>
      match run_isrs E qs s with
      | none => none
      | some (s, ls) => some (s, l ++ ls)

/-- The `while (1)` loop of `wait_for_completion_timeout`.  Each entry of the
run is one return of `wait_for_interrupt`; when the run is used up and neither
flag is set the processor stays parked and the function does not return. -/
def wait_loop {σ ι : Type} (E : wait_ctx σ ι) : List (List ι) → σ → Option (σ × List call)
  | [], s =>
    if (E.comp s).complete ≠ 0 ∨ (E.comp s).timeout ≠ 0 then some (s, []) else none
  | w :: ws, s =>
    if (E.comp s).complete ≠ 0 ∨ (E.comp s).timeout ≠ 0 then some (s, [])
    else
      match run_isrs E w s with
      | none => none
      | some (s, l) =>
        match wait_loop E ws s with
        | none => none
        | some (s, ls) => some (s, call.wait_for_interrupt :: (l ++ ls))

/-- The interrupts taken during one call of `wait_for_completion_timeout`:
`early` are those taken after `work_schedule_default` and before the
statement `comp->timeout = 0`, in the order in which their handlers ran;
`wakes` are those taken from then on, one batch for each return of
`wait_for_interrupt` in the loop. -/
structure wait_run (ι : Type) where
  early : List ι
  wakes : List (List ι)

/-- The function `wait_for_completion_timeout`.  The statement
`comp->timeout = 0` overwrites what a timeout callback among the early
interrupts wrote. -/
def wait_for_completion_timeout {σ ι : Type} (E : wait_ctx σ ι) (s : σ)
    (run : wait_run ι) : Option (Int × σ × List call) :=
  let l0 := [call.work_schedule_default (E.comp s).timeout]
  match run_isrs E run.early s with
  | none => none
  | some (s, le) =>
    let s := E.set_comp s { E.comp s with timeout := 0 }
    -- check for completion after every wake from IRQ
    match wait_loop E run.wakes s with
    | none => none
    | some (s, l) =>
      -- did we complete
      if (E.comp s).complete ≠ 0 then
        -- no timeout so cancel work and return 0
        some (0, s, l0 ++ le ++ l ++ [call.work_cancel_default])
      else
        some (-ETIME, s, l0 ++ le ++ l)

/-- Interrupt sources seen by a bare completion object. -/
inductive wait_irq where
  | completed
  | timeout
  | other
deriving DecidableEq, Repr

/-- A completion object on its own: the signalling side calls `wait_completed`,
the work queue calls `_wait_cb`. -/
def completion_ctx : wait_ctx completion_t wait_irq where
  comp := fun c => c
  set_comp := fun _ c => c
  isr := fun q c =>
    match q with
    | .completed => some (wait_completed c, [])
    | .timeout => some (_wait_cb c, [])
    | .other => some (c, [])

/-- Value of `DEFAULT_TRY_TIMES` in wait.h. -/
def DEFAULT_TRY_TIMES : Nat := 8

/-- Reduction of a value stored in a `uint64_t`. -/
def u64 (x : Nat) : Nat := x % 18446744073709551616

/-- The handlers of the interrupts taken while a bare completion object is
polled, in the order in which they ran: the signalling side calls
`wait_completed`, the work queue calls `_wait_cb`. -/
def serve (w : List wait_irq) (c : completion_t) : completion_t :=
  w.foldl (fun c q =>
    match q with
    | .completed => wait_completed c
    | .timeout => _wait_cb c
    | .other => c) c

/-- What `poll_for_completion_delay` does, in program order: a read of the
completion flag through `wait_is_completed`, with the value read, or a call
that leaves wait.h. -/
inductive poll_event where
  | check (complete : Nat)
  | ext (c : call)
deriving DecidableEq, Repr

/-- The value `tick` of `poll_for_completion_delay`.  `ticks_per_ms` is the result
of `clock_ms_to_ticks(PLATFORM_DEFAULT_CLOCK, 1)`, which is not part of the
sources. -/
def poll_tick (ticks_per_ms us : Nat) : Nat :=
  u64 (ticks_per_ms * us) / 1000

/-- The value of `tries` when the loop of `poll_for_completion_delay` starts. -/
def poll_tries (ticks_per_ms us : Nat) : Nat :=
  if poll_tick ticks_per_ms us / DEFAULT_TRY_TIMES = 0 then 1 else DEFAULT_TRY_TIMES

/-- The value of `delta` when the loop of `poll_for_completion_delay` starts. -/
def poll_delta (ticks_per_ms us : Nat) : Nat :=
  if poll_tick ticks_per_ms us / DEFAULT_TRY_TIMES = 0 then us
  else poll_tick ticks_per_ms us / DEFAULT_TRY_TIMES

/-- The `while` loop of `poll_for_completion_delay` with the value of `tries`;
`i` counts the delays made so far and `run i` are the interrupts taken during
delay `i`.  `wait_delay` returns once the platform timer has advanced. -/
def poll_loop (run : Nat → List wait_irq) (delta : Nat) :
    Nat → Nat → completion_t → Int × completion_t × List poll_event
  | 0, _, c =>
    if wait_is_completed c ≠ 0 then (0, c, [.check c.complete])
    else
      -- tries is 0: trace_error and return
      (- EIO, c, [.check c.complete])
  | tries + 1, i, c =>
    if wait_is_completed c ≠ 0 then (0, c, [.check c.complete])
    else
      -- tries is not 0 and is decremented
      let r := poll_loop run delta tries (i + 1) (serve (run i) c)
      (r.1, r.2.1, .check c.complete :: .ext (call.wait_delay delta) :: r.2.2)

/-- The function `poll_for_completion_delay`. -/
def poll_for_completion_delay (comp : completion_t) (us : Nat) (ticks_per_ms : Nat)
    (run : Nat → List wait_irq) : Int × completion_t × List poll_event :=
  poll_loop run (poll_delta ticks_per_ms us) (poll_tries ticks_per_ms us) 0 comp

/-! ## host.c: completion callback, preload, prepare, copy -/

/-- What the environment supplies to one run of `host_dma_cb`: the position
reported by `dma_status`, the overlays of the two list heads, and the byte
counts that `comp_update_buffer` computes. -/
structure dma_irq where
  position : Nat
  ov : overlays
  avail : Nat
  free : Nat
deriving DecidableEq, Repr

/-- Modelled from the spec: `comp_update_buffer` of reef/audio/component.h is not
part of the sources; it recomputes the available and free byte counts of the
buffer.  The recomputed counts are inputs. -/
def comp_update_buffer (b : comp_buffer) (avail free : Nat) : comp_buffer :=
  { b with avail := avail, free := free }

/-- The call `next_buffer(hc)` followed by the reads of the fields of the
returned element. -/
def next_elem (hc : hc_buf) (overlay : dma_sg_elem) : Option (dma_sg_elem × hc_buf) :=
  match next_buffer hc with
  | none => none
  | some (p, hc) =>
    match elem_at hc.elem_list overlay p with
    | none => none
    | some e => some (e, hc)

/-- The steps taken in `host_dma_cb` when a side of the transfer has reached the
end marker of its list `r`: `next_buffer` on that list, and the end marker
recomputed from the returned element.  Both sides compute the new end marker
as `elem->src + elem->size`. -/
def hc_advance (hd : host_data) (r : hc_ref) (overlay : dma_sg_elem) :
    Option (dma_sg_elem × host_data) :=
  match next_elem (hd.hc r) overlay with
  | none => none
  | some (e, hc) => some (e, hd.set_hc r { hc with current_end := u32 (e.src + e.size) })

/-- The source side of `host_dma_cb`: the source of the local descriptor moves
on by one period and, at the end marker of the source list, to the next source
element.  The local descriptor is `hd->config`'s only element, so every write
to it is a write to `hd`. -/
def host_dma_cb_source (hd : host_data) (size : Nat) (ov : overlays) : Option host_data :=
  -- update source buffer elem and check for overflow
  let local_elem : dma_sg_elem := { hd.config.elem with src := u32 (hd.config.elem.src + size) }
  if local_elem.src ≥ (hd.hc hd.source).current_end then
    -- move onto next host side elem
    match hc_advance hd hd.source (ov.of hd.source) with
    | none => none
    | some (source_elem, hd) =>
      some { hd with config := { hd.config with elem := { local_elem with src := source_elem.src } } }
  else some { hd with config := { hd.config with elem := local_elem } }

/-- The sink side of `host_dma_cb`: the destination of the local descriptor
moves on by one period; the test that follows compares the source of the local
descriptor with the end marker of the sink list. -/
def host_dma_cb_sink (hd : host_data) (size : Nat) (ov : overlays) : Option host_data :=
  -- update sink buffer elem and check for overflow
  let local_elem : dma_sg_elem := { hd.config.elem with dest := u32 (hd.config.elem.dest + size) }
  if local_elem.src ≥ (hd.hc hd.sink).current_end then
    -- move onto next host side elem
    match hc_advance hd hd.sink (ov.of hd.sink) with
    | none => none
    | some (sink_elem, hd) =>
      some { hd with config := { hd.config with elem := { local_elem with dest := sink_elem.dest } } }
  else some { hd with config := { hd.config with elem := local_elem } }

/-- The last part of `host_dma_cb`: buffer position, host position, buffer
counts and the completion flag.  The statement `*hd->host_pos = ...` has no
null test: with a null `host_pos` it is a store through a null pointer. -/
def host_dma_cb_finish (dev : comp_dev) (q : dma_irq) : Option (comp_dev × List call) :=
  -- update local buffer position
  let b := dev.dma_buffer
  let b : comp_buffer :=
    if dev.hd.params.direction = STREAM_DIRECTION_PLAYBACK then { b with w_ptr := q.position }
    else { b with r_ptr := q.position }
  if dev.hd.host_pos = 0 then none
  else
    -- recalc available buffer space
    let b := comp_update_buffer b q.avail q.free
    let dev1 := dev.set_dma_buffer b
    -- let any waiters know we have completed
    some ({ dev1 with hd := { dev1.hd with complete := wait_completed dev1.hd.complete } },
      [call.dma_status, call.store dev.hd.host_pos q.position])

/-- The function `host_dma_cb`. -/
def host_dma_cb (dev : comp_dev) (q : dma_irq) : Option (comp_dev × List call) :=
  match host_dma_cb_source dev.hd dev.period.size q.ov with
  | none => none
  | some hd =>
    match host_dma_cb_sink hd dev.period.size q.ov with
    | none => none
    | some hd => host_dma_cb_finish { dev with hd := hd } q

/-- Interrupt sources of the component: completion of the DMA channel, for
which the driver calls `host_dma_cb`; the work queue running the pending
timeout work, `_wait_cb`; any other source. -/
inductive irq where
  | dma (q : dma_irq)
  | timer
  | other
deriving DecidableEq, Repr

/-- The completion object `hd->complete` inside its component. -/
def host_ctx : wait_ctx comp_dev irq where
  comp := fun dev => dev.hd.complete
  set_comp := fun dev c => { dev with hd := { dev.hd with complete := c } }
  isr := fun q dev =>
    match q with
    | .dma q => host_dma_cb dev q
    | .timer => some ({ dev with hd := { dev.hd with complete := _wait_cb dev.hd.complete } }, [])
    | .other => some (dev, [])

/-- The loop of `host_preload`: `k` iterations remain and `i` is the loop
variable; `runs i` is what happens during the wait of iteration `i`. -/
def host_preload_loop (runs : Nat → wait_run irq) :
    Nat → Nat → comp_dev → Option (Int × comp_dev × List call)
  | 0, _, dev => some (0, dev, [])
  | k + 1, i, dev =>
    -- do DMA transfer
    let (c, l0) := wait_init dev.hd.complete
    let dev : comp_dev := { dev with hd := { dev.hd with complete := c } }
    let l1 := [call.dma_set_config dev.hd.config, call.dma_start]
    -- wait 1 msecs for DMA to finish
    let dev : comp_dev := { dev with hd := { dev.hd with complete := { dev.hd.complete with timeout := 1 } } }
    match wait_for_completion_timeout host_ctx dev (runs i) with
    | none => none
    | some (ret, dev, l2) =>
      if ret < 0 then some (ret, dev, l0 ++ l1 ++ l2)
      else
        match host_preload_loop runs k (i + 1) dev with
        | none => none
        | some (ret, dev, l3) => some (ret, dev, l0 ++ l1 ++ l2 ++ l3)

/-- The function `host_preload`; a count that is not positive runs no
iteration. -/
def host_preload (dev : comp_dev) (count : Int) (runs : Nat → wait_run irq) :
    Option (Int × comp_dev × List call) :=
  host_preload_loop runs count.toNat 0 dev

/-- The function `host_prepare`. -/
def host_prepare (dev : comp_dev) (runs : Nat → wait_run irq) :
    Option (Int × comp_dev × List call) :=
  -- preload PCM data
  let r : Option (Int × comp_dev × List call) :=
    if dev.hd.params.direction = STREAM_DIRECTION_PLAYBACK then
      host_preload dev (to_int (u32 (dev.period.number + 4294967295))) runs
    else some (0, dev, [])
  match r with
  | none => none
  | some (ret, dev, l) => some (ret, { dev with hd := { dev.hd with host_pos := 0 } }, l)

/-- The function `host_copy`. -/
def host_copy (dev : comp_dev) : Int × comp_dev × List call :=
  -- we can only copy new data is previous DMA request has completed
  if wait_is_completed dev.hd.complete = 0 then (0, dev, [])
  else
    let size :=
      if dev.hd.params.direction = STREAM_DIRECTION_PLAYBACK then dev.dma_buffer.free
      else dev.dma_buffer.avail
    if size > dev.period.size then
      -- do DMA transfer
      let (c, l0) := wait_init dev.hd.complete
      let dev : comp_dev := { dev with hd := { dev.hd with complete := c } }
      (0, dev, l0 ++ [call.dma_set_config dev.hd.config, call.dma_start])
    else (0, dev, [])

/-- The function `host_reset`. -/
def host_reset (dev : comp_dev) : Int × comp_dev :=
  (0, { dev with hd := { dev.hd with
          host := list_free_all dev.hd.host
          loc := list_free_all dev.hd.loc
          host_size := 0 } })

/-- The command numbers that `host_cmd` switches on.  They are macros of
reef/audio/pipeline.h and reef/audio/component.h, which are not part of the
sources, and are taken as given. -/
structure cmd_table where
  PIPELINE_CMD_PAUSE : Int
  PIPELINE_CMD_STOP : Int
  PIPELINE_CMD_RELEASE : Int
  PIPELINE_CMD_START : Int
  PIPELINE_CMD_DRAIN : Int
  PIPELINE_CMD_SUSPEND : Int
  PIPELINE_CMD_RESUME : Int
  COMP_CMD_IPC_MMAP_RPOS : Int
deriving DecidableEq, Repr

/-- The case labels of the `switch` in `host_cmd`, in source order.  The C
compiler accepts the `switch` only when they are pairwise different. -/
def cmd_table.labels (T : cmd_table) : List Int :=
  [T.PIPELINE_CMD_PAUSE, T.PIPELINE_CMD_STOP, T.PIPELINE_CMD_RELEASE, T.PIPELINE_CMD_START,
   T.PIPELINE_CMD_DRAIN, T.PIPELINE_CMD_SUSPEND, T.PIPELINE_CMD_RESUME,
   T.COMP_CMD_IPC_MMAP_RPOS]

/-- The function `host_cmd`.  `data` is the pointer argument.  `driver_ret` is
the value that the DMA driver call of the command returns; the code discards
it. -/
def host_cmd (T : cmd_table) (dev : comp_dev) (cmd : Int) (data : Nat) (driver_ret : Int) :
    Int × comp_dev × List call :=
  if cmd = T.PIPELINE_CMD_PAUSE then
    let _ := driver_ret
    (0, dev, [call.dma_pause])
  else if cmd = T.PIPELINE_CMD_STOP then
    let _ := driver_ret
    (0, dev, [call.dma_stop])
  else if cmd = T.PIPELINE_CMD_RELEASE then
    let _ := driver_ret
    (0, dev, [call.dma_release])
  else if cmd = T.PIPELINE_CMD_START then
    -- already pre-loaded, dma will be started by cb
    (0, dev, [])
  else if cmd = T.PIPELINE_CMD_DRAIN then
    let _ := driver_ret
    (0, dev, [call.dma_drain])
  else if cmd = T.PIPELINE_CMD_SUSPEND ∨ cmd = T.PIPELINE_CMD_RESUME then
    (0, dev, [])
  else if cmd = T.COMP_CMD_IPC_MMAP_RPOS then
    (0, { dev with hd := { dev.hd with host_pos := data } }, [])
  else
    (0, dev, [])

/-! ## Predicates and iterations used in the statements -/

/-- The states whose host list was built by successful `host_buffer` calls,
starting from the state that `host_new` and `host_reset` leave: empty host
list and `host_size` zero.  Between the calls the state may change in any way
that keeps the segments of the host list and `host_size`, as the other
operations of the component do. -/
inductive host_built : comp_dev → Prop where
  | fresh (dev : comp_dev) (hl : dev.hd.host.elem_list = []) (hs : dev.hd.host_size = 0) :
      host_built dev
  | buffer (dev dev1 : comp_dev) (elem : dma_sg_elem) (a : Option dma_sg_elem)
      (hb : host_built dev) (hr : host_buffer dev elem a = (0, dev1)) : host_built dev1
  | other (dev dev1 : comp_dev) (hb : host_built dev)
      (hl : dev1.hd.host.elem_list = dev.hd.host.elem_list)
      (hs : dev1.hd.host_size = dev.hd.host_size) : host_built dev1

/-- The period descriptor that `host_params` selects for a direction: the
source period of the first sink buffer for playback, the sink period of the
first source buffer otherwise. -/
def negotiated_period (dev : comp_dev) (params : stream_params) : period_desc :=
  if params.direction = STREAM_DIRECTION_PLAYBACK then dev.bsink.source_period
  else dev.bsource.sink_period

/-- Repeated calls of `next_buffer`: the element pointers returned, in call
order, and the final list. -/
def next_buffer_n : Nat → hc_buf → Option (List list_ptr × hc_buf)
  | 0, hc => some ([], hc)
  | n + 1, hc =>
    match next_buffer hc with
    | none => none
    | some (p, hc) =>
      match next_buffer_n n hc with
      | none => none
      | some (ps, hc) => some (p :: ps, hc)

/-- Repeated completion callbacks, all with the same interrupt input. -/
def host_dma_cb_n (q : dma_irq) : Nat → comp_dev → Option comp_dev
  | 0, dev => some dev
  | n + 1, dev =>
    match host_dma_cb dev q with
    | none => none
    | some (dev, _) => host_dma_cb_n q n dev

/-- The runs of a bare completion object in which `wait_completed` sets the
completion flag before the timeout callback fires: among all interrupts of the
run, the early ones first, in the order in which their handlers ran, the
first that is a completion or a timeout is a completion. -/
def completed_before_timeout (run : wait_run wait_irq) : Prop :=
  (run.early ++ run.wakes.flatten).find? (fun q => q = .completed || q = .timeout) =
    some .completed

/-- The cursor of a list points into its ring: at the head or at an element
that exists. -/
def hc_buf.valid (hc : hc_buf) : Prop :=
  match hc.current with
  | .head => True
  | .item i => i < hc.elem_list.length

/-- A configured engine: the cursors of both lists point into their rings and
the period count fits the `int` that `create_local_elems` counts it with.
`host_params_configured` shows that a successful `host_params` leaves such a
state. -/
def configured (dev : comp_dev) : Prop :=
  dev.hd.host.valid ∧ dev.hd.loc.valid ∧ dev.period.number ≤ INT_MAX

/-- What a callback leaves as it was: the negotiated period, the stream
parameters and the host position pointer; the state stays configured. -/
def dev_frame (a b : comp_dev) : Prop :=
  configured b ∧ b.period = a.period ∧ b.hd.params = a.hd.params ∧
    b.hd.host_pos = a.hd.host_pos

/-- The DMA completion interrupt. -/
def irq.is_dma : irq → Bool
  | .dma _ => true
  | _ => false

/-- A wait during which the transfer completes in time: the DMA completion
interrupt is served among the early interrupts, or, after wake-ups by
unrelated interrupts only, in a wake-up of the loop. -/
def run_completes (run : wait_run irq) : Prop :=
  (∃ q ∈ run.early, irq.is_dma q = true) ∨
  ∃ pre w post, run.wakes = pre ++ w :: post ∧ (∀ v ∈ pre, ∀ q ∈ v, q = irq.other) ∧
    (∃ q ∈ w, irq.is_dma q = true)

/-- A wait that times out: no DMA completion interrupt among the early
interrupts, wake-ups by unrelated interrupts only, then a wake-up in which the
timeout work ran and no DMA completion interrupt was served. -/
def run_times_out (run : wait_run irq) : Prop :=
  (∀ q ∈ run.early, irq.is_dma q = false) ∧
  ∃ pre w post, run.wakes = pre ++ w :: post ∧ (∀ v ∈ pre, ∀ q ∈ v, q = irq.other) ∧
    irq.timer ∈ w ∧ (∀ q ∈ w, irq.is_dma q = false)

/-- The steps of one preload transfer. -/
inductive step where
  | init
  | config
  | start
  | wait
deriving DecidableEq, Repr

/-- The step of a transfer that a call stands for: `wait_init` is seen by its
`work_init`, the timed wait by its `work_schedule_default`. -/
def call.step : call → Option step
  | .work_init => some .init
  | .dma_set_config _ => some .config
  | .dma_start => some .start
  | .work_schedule_default _ => some .wait
  | _ => none

/-- The steps of `n` transfers issued one after the other. -/
def transfers (n : Nat) : List step :=
  (List.replicate n [step.init, step.config, step.start, step.wait]).flatten

/-- The engine together with the number of transfers in flight: those started by
a `dma_start` whose completion callback has not run yet. -/
structure flight where
  dev : comp_dev
  pending : Nat

/-- One event of steady state: a call of `host_copy`, which starts as many
transfers as it calls `dma_start`, or the completion callback of a transfer
that is in flight. -/
inductive flight_step : flight → flight → Prop where
  | copy (s : flight) :
      flight_step s ⟨(host_copy s.dev).2.1,
        s.pending + (host_copy s.dev).2.2.count call.dma_start⟩
  | cb (s : flight) (q : dma_irq) (dev1 : comp_dev) (log : List call)
      (hp : 0 < s.pending) (hcb : host_dma_cb s.dev q = some (dev1, log)) :
      flight_step s ⟨dev1, s.pending - 1⟩

/-- The states reached from `s0` by any interleaving of such events. -/
inductive flight_reach (s0 : flight) : flight → Prop where
  | start : flight_reach s0 s0
  | step (s t : flight) (hr : flight_reach s0 s) (hs : flight_step s t) : flight_reach s0 t

/-- The buffer that `host_params` binds `hd->dma_buffer` to for a direction: the
first sink buffer for playback, the first source buffer otherwise. -/
def negotiated_buffer (dev : comp_dev) (params : stream_params) : comp_buffer :=
  if params.direction = STREAM_DIRECTION_PLAYBACK then dev.bsink else dev.bsource

/-- The element that iteration `i` of the loop of `create_local_elems` adds to
the local list when its allocation succeeds. -/
def local_slice (rmalloc : Nat → Option dma_sg_elem) (direction base size i : Nat) :
    dma_sg_elem :=
  let e := (rmalloc i).getD ⟨0, 0, 0⟩
  let e : dma_sg_elem :=
    if direction = STREAM_DIRECTION_PLAYBACK then { e with dest := u32 (base + u32 (i * size)) }
    else { e with src := u32 (base + u32 (i * size)) }
  { e with size := size }

/-- The completion object after the handlers of `n` successive delays, the
first of which is delay `i`. -/
def served (run : Nat → List wait_irq) : Nat → completion_t → Nat → completion_t
  | _, c, 0 => c
  | i, c, n + 1 => served run (i + 1) (serve (run i) c) n

/-- The events of `n` rounds of the polling loop that saw the flag unset: a
check that reads 0 and then one delay. -/
def poll_rounds (delta n : Nat) : List poll_event :=
  (List.replicate n [poll_event.check 0, poll_event.ext (call.wait_delay delta)]).flatten

/-! ## Concrete states used as examples -/

/-- A period descriptor of four periods of 512 bytes. -/
def ex_period : period_desc := { size := 512, number := 4 }

/-- A component buffer whose control structure lies at 0x2000 and whose data
area lies at 0x8000. -/
def ex_bsink : comp_buffer :=
  { self := 0x2000, addr := 0x8000, r_ptr := 0, w_ptr := 0, free := 2048, avail := 0,
    source_period := ex_period, sink_period := ex_period, params := ⟨0, 0⟩ }

/-- A second component buffer, on the source side. -/
def ex_bsource : comp_buffer :=
  { ex_bsink with self := 0x3000, addr := 0xA000 }

/-- The engine right after `host_new`: no segments, no recorded segment size. -/
def ex_new : comp_dev :=
  { hd := { config := ⟨⟨0, 0, 0⟩, 0, 0, 0, 0⟩, complete := ⟨0, 0⟩,
            period := .source_period .bsink, dma_buffer := .bsink,
            host := ⟨[], .head, 0⟩, loc := ⟨[], .head, 0⟩, host_size := 0, host_pos := 0,
            source := .host, sink := .loc, params := ⟨0, 0⟩ },
    bsink := ex_bsink, bsource := ex_bsource }

/-- Registration of one host segment with a successful allocation. -/
def ex_register (dev : comp_dev) (e : dma_sg_elem) : comp_dev :=
  (host_buffer dev e (some ⟨0, 0, 0⟩)).2

/-- An allocator that always succeeds and hands out zeroed elements. -/
def ex_rmalloc : Nat → Option dma_sg_elem := fun _ => some ⟨0, 0, 0⟩

/-- Overlays of the two list heads used in the examples. -/
def ex_ov : overlays := { host := ⟨7, 7, 7⟩, loc := ⟨9, 9, 9⟩ }

/-- Playback stream parameters. -/
def ex_playback : stream_params := { direction := STREAM_DIRECTION_PLAYBACK, pcm := 5 }

/-- The engine with one registered host segment of 1024 bytes. -/
def ex_host_1024 : comp_dev := ex_register ex_new ⟨0x10000, 0, 1024⟩

/-- The engine with one registered host segment of 768 bytes. -/
def ex_host_768 : comp_dev := ex_register ex_new ⟨0x10000, 0, 768⟩

/-- The engine with four registered host segments of one period (512 bytes)
each. -/
def ex_host_4 : comp_dev :=
  ex_register (ex_register (ex_register (ex_register ex_new ⟨0x10000, 0, 512⟩)
    ⟨0x20000, 0, 512⟩) ⟨0x30000, 0, 512⟩) ⟨0x40000, 0, 512⟩

/-- The state of `ex_host_4` after `host_params` for playback. -/
def ex_configured : comp_dev :=
  match host_params ex_host_4 ex_playback ex_rmalloc ex_ov with
  | some (_, dev) => dev
  | none => ex_host_4

/-- The interrupt input used in the examples. -/
def ex_irq : dma_irq := { position := 0x8200, ov := ex_ov, avail := 512, free := 1536 }

/-- An interrupt input that differs from `ex_irq` in the words read through the
head of the host list: they look like a segment of 0x1000 bytes at 0x5000. -/
def ex_irq_wide : dma_irq :=
  { ex_irq with ov := { host := ⟨0x5000, 0, 0x1000⟩, loc := ⟨9, 9, 9⟩ } }

/-- The interrupts of a preload transfer that completes: no early interrupt, a
wake-up by an unrelated interrupt, then the DMA completion. -/
def ex_run_ok : wait_run irq := { early := [], wakes := [[.other], [.dma ex_irq]] }

/-- The interrupts of a preload transfer that times out: no early interrupt, a
wake-up by an unrelated interrupt, then the timeout work. -/
def ex_run_timeout : wait_run irq := { early := [], wakes := [[.other], [.timer]] }

/-- Three preload transfers of which the third times out. -/
def ex_runs_third_fails : Nat → wait_run irq :=
  fun i => if i < 2 then ex_run_ok else ex_run_timeout

/-- Command numbers used in the examples. -/
def ex_cmds : cmd_table :=
  { PIPELINE_CMD_PAUSE := 1, PIPELINE_CMD_STOP := 0, PIPELINE_CMD_RELEASE := 2,
    PIPELINE_CMD_START := 3, PIPELINE_CMD_DRAIN := 4, PIPELINE_CMD_SUSPEND := 5,
    PIPELINE_CMD_RESUME := 6, COMP_CMD_IPC_MMAP_RPOS := 200 }

/-- The example engine after a successful prepare: configured, completion flag
set, free space of four periods. -/
def ex_prepared : comp_dev :=
  { ex_configured with hd := { ex_configured.hd with complete := ⟨1, 0⟩ } }

/-- An allocator that succeeds twice and then returns a null pointer. -/
def ex_rmalloc_third_fails : Nat → Option dma_sg_elem :=
  fun i => if i < 2 then some ⟨0, 0, 0⟩ else none

/-- The configured example engine after the position command stored the pointer
0x9000 in `host_pos`. -/
def ex_mapped : comp_dev :=
  (host_cmd ex_cmds ex_configured 200 0x9000 0).2.1

/-- Capture stream parameters. -/
def ex_capture : stream_params := { direction := STREAM_DIRECTION_CAPTURE, pcm := 5 }

/-- Interrupts during the delays of a poll: the completion is signalled during
the third delay (delay 2). -/
def ex_poll_signalled : Nat → List wait_irq :=
  fun i => if i = 2 then [.completed] else [.other]

/-- Interrupts during the delays of a poll in which nothing is ever signalled. -/
def ex_poll_silent : Nat → List wait_irq := fun _ => []

end Sof

/-! ## Theorems -/

namespace Sof

/-! ### C1: host_buffer and segments of differing size -/

theorem host_new_built (rmalloc_dev : Bool) (rmalloc_hd : Option host_data)
    (rmalloc_elem : Option dma_sg_elem) (chan : Int) (bsink bsource : comp_buffer)
    (dev : comp_dev)
    (h : host_new rmalloc_dev rmalloc_hd rmalloc_elem chan bsink bsource = some dev) :
    host_built dev := by
  unfold host_new at h
  split at h
  · exact absurd h (by simp)
  cases rmalloc_hd with
  | none => simp at h
  | some hd =>
    cases rmalloc_elem with
    | none => simp at h
    | some elem =>
      simp only [] at h
      split at h
      · exact absurd h (by simp)
      · simp only [Option.some.injEq] at h
        subst h
        exact host_built.fresh _ rfl rfl

theorem host_reset_built (dev : comp_dev) : host_built (host_reset dev).2 :=
  host_built.fresh _ rfl rfl

theorem host_buffer_ok_list (dev dev1 : comp_dev) (elem : dma_sg_elem) (a : Option dma_sg_elem)
    (h : host_buffer dev elem a = (0, dev1)) :
    dev1.hd.host.elem_list = dev.hd.host.elem_list ++ [elem] ∧ dev1.hd.host_size = elem.size ∧
      (dev.hd.host_size = 0 ∨ dev.hd.host_size = elem.size) := by
  unfold host_buffer at h
  cases a with
  | none => simp [ENOMEM] at h
  | some a0 =>
    by_cases hc : dev.hd.host_size ≠ 0 ∧ dev.hd.host_size ≠ elem.size
    · simp [hc, EINVAL] at h
    · simp only [hc, if_false, Prod.mk.injEq, true_and] at h
      subst h
      refine ⟨by simp [list_add_tail], rfl, ?_⟩
      by_cases h0 : dev.hd.host_size = 0
      · exact Or.inl h0
      · right
        by_contra hne
        exact hc ⟨h0, hne⟩

theorem host_built_sizes (dev : comp_dev) (h : host_built dev) :
    (∀ e ∈ dev.hd.host.elem_list, e.size ≠ 0) →
      ∀ e ∈ dev.hd.host.elem_list, e.size = dev.hd.host_size := by
  induction h with
  | fresh dev hl hs => intro _ e he; simp [hl] at he
  | buffer dev dev1 elem a hb hr ih =>
    obtain ⟨hl, hs, hz⟩ := host_buffer_ok_list dev dev1 elem a hr
    intro hnz e he
    rw [hl] at he hnz
    rw [hs]
    have hnz0 : ∀ x ∈ dev.hd.host.elem_list, x.size ≠ 0 :=
      fun x hx => hnz x (List.mem_append_left _ hx)
    rcases List.mem_append.mp he with he | he
    · have h1 := ih hnz0 e he
      rcases hz with hz | hz
      · exact absurd (h1.trans hz) (hnz0 e he)
      · exact h1.trans hz
    · simp at he
      rw [he]
  | other dev dev1 hb hl hs ih =>
    intro hnz e he
    rw [hl] at he hnz
    rw [hs]
    exact ih hnz e he

/-- C1 (amended): on a host list built by successful `host_buffer` calls in which
every registered segment has a non-zero size, a new segment whose size differs
from the size of a registered segment is refused: the call returns `-EINVAL`
when its allocation succeeds and `-ENOMEM` when it fails, and in both cases the
whole state, host list and `host_size` included, is unchanged. -/
theorem host_buffer_size_mismatch (dev : comp_dev) (hb : host_built dev)
    (hnz : ∀ e ∈ dev.hd.host.elem_list, e.size ≠ 0)
    (elem : dma_sg_elem) (hdiff : ∃ e ∈ dev.hd.host.elem_list, e.size ≠ elem.size)
    (a : Option dma_sg_elem) :
    host_buffer dev elem a = (if a.isSome then -EINVAL else -ENOMEM, dev) := by
  obtain ⟨e, he, hne⟩ := hdiff
  have hsz := host_built_sizes dev hb hnz e he
  have h0 : dev.hd.host_size ≠ 0 := by rw [← hsz]; exact hnz e he
  have h1 : dev.hd.host_size ≠ elem.size := by rw [← hsz]; exact hne
  cases a with
  | none => simp [host_buffer]
  | some a0 => simp [host_buffer, h0, h1]

/-- C1 witness: after a segment of 256 bytes, a segment of 128 bytes is refused
and the first segment stays. -/
theorem host_buffer_size_mismatch_witness :
    host_buffer (ex_register ex_new ⟨0x10000, 0, 256⟩) ⟨0x20000, 0, 128⟩ (some ⟨0, 0, 0⟩)
      = (-EINVAL, ex_register ex_new ⟨0x10000, 0, 256⟩) ∧
    (ex_register ex_new ⟨0x10000, 0, 256⟩).hd.host.elem_list = [⟨0x10000, 0, 256⟩] :=
  ⟨host_buffer_size_mismatch (ex_register ex_new ⟨0x10000, 0, 256⟩)
      (host_built.buffer ex_new _ ⟨0x10000, 0, 256⟩ (some ⟨0, 0, 0⟩)
        (host_built.fresh ex_new rfl rfl) rfl)
      (by decide) ⟨0x20000, 0, 128⟩ (by decide) (some ⟨0, 0, 0⟩),
    by decide⟩

/-- C1 counterexample: a registered segment of size zero leaves `host_size` at
its unset value, so a following segment of 128 bytes is accepted although its
size differs from the registered one; and when the allocation fails the call
returns `-ENOMEM` and not `-EINVAL`. -/
theorem host_buffer_size_mismatch_counterexample :
    (host_built (ex_register ex_new ⟨0x10000, 0, 0⟩) ∧
      (∃ e ∈ (ex_register ex_new ⟨0x10000, 0, 0⟩).hd.host.elem_list, e.size ≠ 128) ∧
      (host_buffer (ex_register ex_new ⟨0x10000, 0, 0⟩) ⟨0x20000, 0, 128⟩ (some ⟨0, 0, 0⟩)).1 = 0 ∧
      (host_buffer (ex_register ex_new ⟨0x10000, 0, 0⟩) ⟨0x20000, 0, 128⟩
          (some ⟨0, 0, 0⟩)).2.hd.host.elem_list = [⟨0x10000, 0, 0⟩, ⟨0x20000, 0, 128⟩]) ∧
    (host_built (ex_register ex_new ⟨0x10000, 0, 256⟩) ∧
      (∃ e ∈ (ex_register ex_new ⟨0x10000, 0, 256⟩).hd.host.elem_list, e.size ≠ 128) ∧
      (host_buffer (ex_register ex_new ⟨0x10000, 0, 256⟩) ⟨0x20000, 0, 128⟩ none).1 = -ENOMEM) := by
  refine ⟨⟨host_built.buffer ex_new _ ⟨0x10000, 0, 0⟩ (some ⟨0, 0, 0⟩)
      (host_built.fresh ex_new rfl rfl) rfl, by decide, by decide, by decide⟩,
    ⟨host_built.buffer ex_new _ ⟨0x10000, 0, 256⟩ (some ⟨0, 0, 0⟩)
      (host_built.fresh ex_new rfl rfl) rfl, by decide, by decide⟩⟩

/-! ### C2: the size check of host_params -/

theorem host_params_bind_period (dev : comp_dev) (params : stream_params) :
    (host_params_bind dev params).period = negotiated_period dev params := by
  unfold negotiated_period host_params_bind
  split <;> simp [comp_dev.period, comp_dev.buffer, comp_set_sink_params]

theorem host_params_bind_hd (dev : comp_dev) (params : stream_params) :
    (host_params_bind dev params).hd.host = dev.hd.host ∧
      (host_params_bind dev params).hd.loc = dev.hd.loc ∧
      (host_params_bind dev params).hd.host_size = dev.hd.host_size ∧
      (host_params_bind dev params).hd.params = params ∧
      (host_params_bind dev params).hd.config = dev.hd.config ∧
      (host_params_bind dev params).hd.complete = dev.hd.complete ∧
      (host_params_bind dev params).hd.host_pos = dev.hd.host_pos := by
  unfold host_params_bind
  split <;> simp [comp_set_sink_params]

/-- C2 (amended): when the negotiated period size is not zero and does not evenly
divide the recorded host segment size (`host_size mod period_size` is not
zero), `host_params` returns `-EINVAL` and leaves the host list and the local
list as they were, so the local list has no segments when it had none before
the call. -/
theorem host_params_size_check (dev : comp_dev) (params : stream_params)
    (rmalloc : Nat → Option dma_sg_elem) (ov : overlays)
    (hp : (negotiated_period dev params).size ≠ 0)
    (hm : dev.hd.host_size % (negotiated_period dev params).size ≠ 0) :
    ∃ dev1, host_params dev params rmalloc ov = some (-EINVAL, dev1) ∧
      dev1.hd.loc = dev.hd.loc ∧ dev1.hd.host = dev.hd.host ∧
      (dev.hd.loc.elem_list = [] → dev1.hd.loc.elem_list = []) := by
  obtain ⟨hh, hl, hs, -⟩ := host_params_bind_hd dev params
  refine ⟨host_params_bind dev params, ?_, hl, hh, fun h => by rw [hl]; exact h⟩
  unfold host_params
  simp only [host_params_bind_period, hs, hp, hm, if_false, ne_eq, not_false_eq_true, if_true]

/-- C2 witness: a host segment size of 768 bytes and a period of 512 bytes. -/
theorem host_params_size_check_witness :
    ∃ dev1, host_params ex_host_768 ex_playback ex_rmalloc ex_ov = some (-EINVAL, dev1) ∧
      dev1.hd.loc = ex_host_768.hd.loc ∧ dev1.hd.host = ex_host_768.hd.host ∧
      (ex_host_768.hd.loc.elem_list = [] → dev1.hd.loc.elem_list = []) :=
  host_params_size_check ex_host_768 ex_playback ex_rmalloc ex_ov (by decide) (by decide)

/-- C2 counterexample: with a host segment size of 1024 bytes and a period of
512 bytes the host segment size does not divide the period size, yet
`host_params` succeeds and builds four local segments. -/
theorem host_params_size_check_counterexample :
    (negotiated_period ex_host_1024 ex_playback).size % ex_host_1024.hd.host_size ≠ 0 ∧
    (host_params ex_host_1024 ex_playback ex_rmalloc ex_ov).map
      (fun r => (r.1, r.2.hd.loc.elem_list.length)) = some (0, 4) := by
  constructor
  · decide
  · rfl

/-! ### C3: the local segments built by host_params -/

/-- C3 (code at the failing input): for playback with four periods of 512 bytes
on a buffer whose control structure lies at 0x2000 and whose data area lies at
0x8000, `host_params` succeeds with four local segments of 512 bytes whose
destinations cover 0x2000 up to 0x2800, the control structure, while `r_ptr`
and `w_ptr` are reset to the data area at 0x8000. -/
theorem host_params_local_range_example :
    (host_params ex_host_4 ex_playback ex_rmalloc ex_ov).map
        (fun r => (r.1, r.2.hd.loc.elem_list, r.2.bsink.r_ptr, r.2.bsink.w_ptr)) =
      some (0, [⟨0, 0x2600, 512⟩, ⟨0, 0x2400, 512⟩, ⟨0, 0x2200, 512⟩, ⟨0, 0x2000, 512⟩],
        0x8000, 0x8000) := by
  rfl

/-! ### C4: next_buffer on the ring of a list -/

theorem next_buffer_n_items (l : List dma_sg_elem) (ce : Nat) (k : Nat) :
    ∀ i, i + k < l.length →
      next_buffer_n k ⟨l, .item i, ce⟩ =
        some ((List.range k).map (fun j => list_ptr.item (i + 1 + j)), ⟨l, .item (i + k), ce⟩) := by
  induction k with
  | zero => intro i _; simp [next_buffer_n]
  | succ k ih =>
    intro i h
    have h1 : i + 1 < l.length := by omega
    have h2 : (i + 1) + k < l.length := by omega
    simp only [next_buffer_n, next_buffer, list_first_entry, list_next, h1, if_true]
    rw [ih (i + 1) h2, List.range_succ_eq_map]
    simp only [List.map_cons, List.map_map, Option.some.injEq, Prod.mk.injEq]
    refine ⟨?_, by congr 2; omega⟩
    congr 1
    apply List.map_congr_left
    intro j _
    simp only [Function.comp, Nat.succ_eq_add_one]
    congr 1
    omega

theorem next_buffer_n_succ (n : Nat) :
    ∀ hc, next_buffer_n (n + 1) hc =
      match next_buffer_n n hc with
      | none => none
      | some (ps, hc1) =>
        match next_buffer hc1 with
        | none => none
        | some (p, hc2) => some (ps ++ [p], hc2) := by
  induction n with
  | zero =>
    intro hc
    simp only [next_buffer_n]
    cases next_buffer hc with
    | none => rfl
    | some r => rfl
  | succ n ih =>
    intro hc
    rw [next_buffer_n]
    cases hnb : next_buffer hc with
    | none => simp [next_buffer_n, hnb]
    | some r =>
      obtain ⟨p, hc1⟩ := r
      simp only []
      rw [ih hc1]
      conv_rhs => rw [next_buffer_n]
      simp only [hnb]
      cases next_buffer_n n hc1 with
      | none => rfl
      | some r1 =>
        obtain ⟨ps, hc2⟩ := r1
        simp only []
        cases next_buffer hc2 with
        | none => rfl
        | some r2 => rfl

/-- C4 (what the code does): on a list of `N >= 1` segments with the cursor on
the first segment, `N` successive calls of `next_buffer` return the second to
the last segment and then, on the `N`-th call, the list head, which is no
segment, and the cursor is left on the list head. -/
theorem next_buffer_wraps_to_head (l : List dma_sg_elem) (ce : Nat) (hl : 1 ≤ l.length) :
    next_buffer_n l.length ⟨l, .item 0, ce⟩ =
      some ((List.range (l.length - 1)).map (fun j => list_ptr.item (1 + j)) ++ [.head],
        ⟨l, .head, ce⟩) := by
  obtain ⟨n, hn⟩ : ∃ n, l.length = n + 1 := ⟨l.length - 1, by omega⟩
  rw [hn, next_buffer_n_succ, next_buffer_n_items l ce n 0 (by omega)]
  simp [next_buffer, list_first_entry, list_next, hn]

/-- C4 witness: four segments; the fourth call returns the list head and the
fifth call is the one that returns the first segment. -/
theorem next_buffer_wraps_to_head_witness :
    next_buffer_n 4 ⟨ex_host_4.hd.host.elem_list, .item 0, 0⟩ =
        some ([.item 1, .item 2, .item 3, .head], ⟨ex_host_4.hd.host.elem_list, .head, 0⟩) ∧
      (next_buffer ⟨ex_host_4.hd.host.elem_list, .head, 0⟩).map (fun r => r.1) =
        some (.item 0) :=
  ⟨next_buffer_wraps_to_head ex_host_4.hd.host.elem_list 0 (by decide), by decide⟩

/-! ### C5: the host cursor under completion callbacks -/

/-- C5 (code at the failing input): playback over four host segments of one
period each.  `host_params` succeeds and the position command sets `host_pos`
to `0x9000`; after one, two and three callbacks the host cursor is on the second, third and fourth segment; after four callbacks
it is on the list head and the source of the local descriptor is the word read
through the head.  After five callbacks it is on the first segment, or, for
other words read through the head, still on the list head; it is not on the
second segment. -/
theorem host_dma_cb_wrap_example :
    host_params ex_host_4 ex_playback ex_rmalloc ex_ov = some (0, ex_configured) ∧
    ex_mapped = { ex_configured with hd := { ex_configured.hd with host_pos := 0x9000 } } ∧
    (List.range 6).map (fun k => (host_dma_cb_n ex_irq k ex_mapped).map
        (fun d => (d.hd.host.current, d.hd.config.elem.src))) =
      [some (.item 0, 0x10000), some (.item 1, 0x20000), some (.item 2, 0x30000),
       some (.item 3, 0x40000), some (.head, 7), some (.item 0, 0x10000)] ∧
    (List.range 6).map (fun k => (host_dma_cb_n ex_irq_wide k ex_mapped).map
        (fun d => (d.hd.host.current, d.hd.config.elem.src))) =
      [some (.item 0, 0x10000), some (.item 1, 0x20000), some (.item 2, 0x30000),
       some (.item 3, 0x40000), some (.head, 0x5000), some (.head, 0x5200)] := by
  refine ⟨?_, ?_, ?_, ?_⟩ <;> rfl

/-! ### C6: host_copy -/

/-- C6: `host_copy` always returns 0.  It issues a transfer, that is it clears the
completion flag and calls `dma_set_config` and then `dma_start`, if and only
if the completion flag is set and the relevant space (free bytes for playback,
available bytes otherwise) is strictly greater than one period; in that case
nothing but the completion flag changes.  In every other case, in particular
whenever the completion flag is unset, it makes no call and leaves the whole
state unchanged. -/
theorem host_copy_spec (dev : comp_dev) :
    (host_copy dev).1 = 0 ∧
    ((host_copy dev).2.2 = [call.work_init, call.dma_set_config dev.hd.config, call.dma_start] ↔
      (dev.hd.complete.complete ≠ 0 ∧
        (if dev.hd.params.direction = STREAM_DIRECTION_PLAYBACK then dev.dma_buffer.free
          else dev.dma_buffer.avail) > dev.period.size)) ∧
    ((dev.hd.complete.complete ≠ 0 ∧
        (if dev.hd.params.direction = STREAM_DIRECTION_PLAYBACK then dev.dma_buffer.free
          else dev.dma_buffer.avail) > dev.period.size) →
      (host_copy dev).2.1 =
        { dev with hd := { dev.hd with complete := { dev.hd.complete with complete := 0 } } }) ∧
    (¬ (dev.hd.complete.complete ≠ 0 ∧
        (if dev.hd.params.direction = STREAM_DIRECTION_PLAYBACK then dev.dma_buffer.free
          else dev.dma_buffer.avail) > dev.period.size) →
      host_copy dev = (0, dev, [])) ∧
    (dev.hd.complete.complete = 0 → host_copy dev = (0, dev, [])) := by
  unfold host_copy wait_is_completed wait_init
  by_cases hc : dev.hd.complete.complete = 0
  · simp [hc]
  · by_cases hs : (if dev.hd.params.direction = STREAM_DIRECTION_PLAYBACK then dev.dma_buffer.free
          else dev.dma_buffer.avail) > dev.period.size
    · simp [hc, hs]
    · simp [hc, hs]

/-- C6 witness: on the configured example engine the completion flag is unset
and nothing happens although 2048 bytes are free; once the flag is set the
transfer is issued. -/
theorem host_copy_spec_witness :
    host_copy ex_configured = (0, ex_configured, []) ∧
    (host_copy { ex_configured with hd := { ex_configured.hd with complete := ⟨1, 0⟩ } }).2.2 =
      [call.work_init, call.dma_set_config ex_configured.hd.config, call.dma_start] :=
  ⟨(host_copy_spec ex_configured).2.2.2.2 (by rfl), by rfl⟩

/-! ### C9 and C10: wait_for_completion_timeout on a completion object -/

theorem run_isrs_completion (w : List wait_irq) :
    ∀ c : completion_t, run_isrs completion_ctx w c =
      some (⟨if wait_irq.completed ∈ w then 1 else c.complete,
             if wait_irq.timeout ∈ w then 1 else c.timeout⟩, []) := by
  induction w with
  | nil => intro c; simp [run_isrs]
  | cons q qs ih =>
    intro c
    cases q
    · simp only [run_isrs]
      rw [show completion_ctx.isr wait_irq.completed c = some (wait_completed c, []) from rfl]
      simp [ih, wait_completed]
    · simp only [run_isrs]
      rw [show completion_ctx.isr wait_irq.timeout c = some (_wait_cb c, []) from rfl]
      simp [ih, _wait_cb]
    · simp only [run_isrs]
      rw [show completion_ctx.isr wait_irq.other c = some (c, []) from rfl]
      simp [ih]

theorem wait_loop_completion_done (run : List (List wait_irq)) (c : completion_t)
    (h : c.complete ≠ 0 ∨ c.timeout ≠ 0) :
    wait_loop completion_ctx run c = some (c, []) := by
  cases run <;> simp [wait_loop, completion_ctx, h]

theorem wait_loop_completion_log (run : List (List wait_irq)) :
    ∀ (c c1 : completion_t) (log : List call),
      wait_loop completion_ctx run c = some (c1, log) →
        (c1.complete ≠ 0 ∨ c1.timeout ≠ 0) ∧ call.work_cancel_default ∉ log := by
  induction run with
  | nil =>
    intro c c1 log h
    by_cases hd : c.complete ≠ 0 ∨ c.timeout ≠ 0
    · rw [wait_loop_completion_done [] c hd] at h
      simp only [Option.some.injEq, Prod.mk.injEq] at h
      obtain ⟨rfl, rfl⟩ := h
      exact ⟨hd, by simp⟩
    · simp [wait_loop, completion_ctx, hd] at h
  | cons w ws ih =>
    intro c c1 log h
    by_cases hd : c.complete ≠ 0 ∨ c.timeout ≠ 0
    · rw [wait_loop_completion_done (w :: ws) c hd] at h
      simp only [Option.some.injEq, Prod.mk.injEq] at h
      obtain ⟨rfl, rfl⟩ := h
      exact ⟨hd, by simp⟩
    · have hd1 : ¬ (¬ (completion_ctx.comp c).complete = 0 ∨ ¬ (completion_ctx.comp c).timeout = 0) := hd
      simp only [wait_loop, ne_eq, hd1, if_false, run_isrs_completion, List.nil_append] at h
      split at h
      · exact absurd h (by simp)
      · rename_i s ls hw
        simp only [Option.some.injEq, Prod.mk.injEq] at h
        obtain ⟨rfl, rfl⟩ := h
        obtain ⟨h1, h2⟩ := ih _ _ _ hw
        exact ⟨h1, by simp [h2]⟩

/-- On a bare completion object the early interrupts leave the completion flag
set if one of them was a completion, and the timeout flag is cleared whatever
they wrote. -/
theorem wait_for_completion_timeout_completion (c : completion_t) (run : wait_run wait_irq) :
    wait_for_completion_timeout completion_ctx c run =
      match wait_loop completion_ctx run.wakes
          ⟨if wait_irq.completed ∈ run.early then 1 else c.complete, 0⟩ with
      | none => none
      | some (c1, l) =>
        if c1.complete ≠ 0 then
          some (0, c1, [call.work_schedule_default c.timeout] ++ l ++ [call.work_cancel_default])
        else
          some (-ETIME, c1, [call.work_schedule_default c.timeout] ++ l) := by
  simp only [wait_for_completion_timeout, run_isrs_completion]
  rw [show completion_ctx.set_comp (⟨if wait_irq.completed ∈ run.early then 1 else c.complete,
      if wait_irq.timeout ∈ run.early then 1 else c.timeout⟩ : completion_t)
      { completion_ctx.comp (⟨if wait_irq.completed ∈ run.early then 1 else c.complete,
          if wait_irq.timeout ∈ run.early then 1 else c.timeout⟩ : completion_t) with
        timeout := 0 } =
      ⟨if wait_irq.completed ∈ run.early then 1 else c.complete, 0⟩ from rfl]
  cases wait_loop completion_ctx run.wakes
      ⟨if wait_irq.completed ∈ run.early then 1 else c.complete, 0⟩ with
  | none => rfl
  | some r =>
    obtain ⟨c1, l⟩ := r
    simp [completion_ctx]

theorem wait_loop_completed_first (run : List (List wait_irq)) :
    ∀ c : completion_t, c.timeout = 0 →
      run.flatten.find? (fun q => q = .completed || q = .timeout) = some .completed →
      ∃ c1 log, wait_loop completion_ctx run c = some (c1, log) ∧ c1.complete ≠ 0 := by
  induction run with
  | nil => intro c _ h; simp at h
  | cons w ws ih =>
    intro c h1 h
    by_cases h0 : c.complete = 0
    · have hd1 : ¬ (¬ (completion_ctx.comp c).complete = 0 ∨ ¬ (completion_ctx.comp c).timeout = 0) := by
        simp [completion_ctx, h0, h1]
      simp only [wait_loop, ne_eq, hd1, if_false, run_isrs_completion, List.nil_append, h0, h1]
      by_cases hcw : wait_irq.completed ∈ w
      · simp only [hcw, if_true]
        rw [wait_loop_completion_done ws _ (Or.inl (by simp))]
        exact ⟨_, _, rfl, by simp⟩
      · have htw : wait_irq.timeout ∉ w := by
          intro htw
          rw [List.flatten_cons, List.find?_append] at h
          have hsome : (w.find? (fun q => q = .completed || q = .timeout)).isSome := by
            rw [List.find?_isSome]
            exact ⟨_, htw, by simp⟩
          obtain ⟨x, hx⟩ := Option.isSome_iff_exists.mp hsome
          rw [hx] at h
          simp only [Option.or_some, Option.some.injEq] at h
          subst h
          exact hcw (List.mem_of_find?_eq_some hx)
        have hws : ws.flatten.find? (fun q => q = .completed || q = .timeout) =
            some .completed := by
          rw [List.flatten_cons, List.find?_append] at h
          have hnone : w.find? (fun q => q = .completed || q = .timeout) = none := by
            rw [List.find?_eq_none]
            intro x hx
            cases x <;> simp_all
          rw [hnone] at h
          simpa using h
        simp only [hcw, htw, if_false]
        obtain ⟨c1, log, hl, hc1⟩ := ih ⟨0, 0⟩ rfl hws
        rw [hl]
        exact ⟨_, _, rfl, hc1⟩
    · rw [wait_loop_completion_done (w :: ws) c (Or.inl h0)]
      exact ⟨_, _, rfl, h0⟩

/-- C10: for every completion object and every run in which `wait_completed` sets
the completion flag before the timeout callback fires, be it before the
statement `comp->timeout = 0` or during a wake-up of the loop,
`wait_for_completion_timeout` returns 0 and calls `work_cancel_default`
exactly once.  Whenever the function returns, the work is cancelled, at most
once, if and only if the result is 0, and the result is 0 if and only if the
completion flag is set at the final check, whatever the timeout flag is. -/
theorem wait_for_completion_timeout_completed (c : completion_t) (run : wait_run wait_irq) :
    (completed_before_timeout run →
      ∃ c1 log, wait_for_completion_timeout completion_ctx c run = some (0, c1, log) ∧
        log.count call.work_cancel_default = 1) ∧
    (∀ ret c1 log, wait_for_completion_timeout completion_ctx c run = some (ret, c1, log) →
      (ret = 0 ↔ call.work_cancel_default ∈ log) ∧
      log.count call.work_cancel_default ≤ 1 ∧
      (ret = 0 ↔ c1.complete ≠ 0) ∧ (ret = 0 ∨ ret = -ETIME)) := by
  constructor
  · intro h
    have hloop : ∃ c1 log, wait_loop completion_ctx run.wakes
        ⟨if wait_irq.completed ∈ run.early then 1 else c.complete, 0⟩ = some (c1, log) ∧
        c1.complete ≠ 0 := by
      by_cases hce : wait_irq.completed ∈ run.early
      · simp only [hce, if_true]
        rw [wait_loop_completion_done run.wakes ⟨1, 0⟩ (Or.inl (by simp))]
        exact ⟨_, _, rfl, by simp⟩
      · apply wait_loop_completed_first run.wakes _ rfl
        unfold completed_before_timeout at h
        rw [List.find?_append] at h
        cases he : run.early.find? (fun q => q = .completed || q = .timeout) with
        | none => rw [he] at h; simpa using h
        | some x =>
          rw [he] at h
          simp only [Option.or_some, Option.some.injEq] at h
          subst h
          exact absurd (List.mem_of_find?_eq_some he) hce
    obtain ⟨c1, log, hl, hc1⟩ := hloop
    have hnl := (wait_loop_completion_log run.wakes _ _ _ hl).2
    refine ⟨c1, [call.work_schedule_default c.timeout] ++ log ++ [call.work_cancel_default],
      ?_, ?_⟩
    · rw [wait_for_completion_timeout_completion, hl]
      simp only [hc1, ne_eq, not_false_eq_true, if_true]
    · simp [List.count_eq_zero_of_not_mem hnl]
  · intro ret c1 log h
    rw [wait_for_completion_timeout_completion] at h
    cases hl : wait_loop completion_ctx run.wakes
        ⟨if wait_irq.completed ∈ run.early then 1 else c.complete, 0⟩ with
    | none => simp [hl] at h
    | some r =>
      obtain ⟨c2, l⟩ := r
      have hnl := (wait_loop_completion_log run.wakes _ _ _ hl).2
      simp only [hl] at h
      by_cases hc2 : c2.complete = 0
      · simp only [hc2, ne_eq, not_true_eq_false, if_false, Option.some.injEq,
          Prod.mk.injEq] at h
        obtain ⟨rfl, rfl, rfl⟩ := h
        simp [hnl, hc2, ETIME, List.count_eq_zero_of_not_mem hnl]
      · simp only [hc2, ne_eq, not_false_eq_true, if_true, Option.some.injEq,
          Prod.mk.injEq] at h
        obtain ⟨rfl, rfl, rfl⟩ := h
        simp [hc2, List.count_eq_zero_of_not_mem hnl]

/-- C10 witness: the completion is signalled on the third wake-up, before the
timeout callback, and the work is cancelled once; and when the timeout
callback and the completion callback both ran before the final check, the
result is 0 as well. -/
theorem wait_for_completion_timeout_completed_witness :
    (∃ c1 log, wait_for_completion_timeout completion_ctx ⟨0, 1⟩
        { early := [], wakes := [[.other], [.other], [.completed], [.timeout]] } =
        some (0, c1, log) ∧
      log.count call.work_cancel_default = 1) ∧
    wait_for_completion_timeout completion_ctx ⟨0, 1⟩
        { early := [], wakes := [[.other], [.timeout, .completed]] } =
      some (0, ⟨1, 1⟩, [call.work_schedule_default 1, call.wait_for_interrupt,
        call.wait_for_interrupt, call.work_cancel_default]) :=
  ⟨(wait_for_completion_timeout_completed ⟨0, 1⟩
      { early := [], wakes := [[.other], [.other], [.completed], [.timeout]] }).1
      (by unfold completed_before_timeout; rfl),
    by rfl⟩

/-! ### C7 and C8: host_preload and host_prepare -/

theorem next_elem_valid (hc : hc_buf) (ov : dma_sg_elem) (h : hc.valid) :
    ∃ e p, next_elem hc ov = some (e, { hc with current := p }) ∧
      ({ hc with current := p } : hc_buf).valid := by
  obtain ⟨l, cur, ce⟩ := hc
  cases cur with
  | head =>
    by_cases hl : l.length = 0
    · refine ⟨ov, .head, ?_, trivial⟩
      simp [next_elem, next_buffer, list_first_entry, list_next, hl, elem_at]
    · have hpos : 0 < l.length := Nat.pos_of_ne_zero hl
      refine ⟨l[0], .item 0, ?_, hpos⟩
      simp [next_elem, next_buffer, list_first_entry, list_next, hl, elem_at, hpos]
  | item i =>
    have hi : i < l.length := h
    by_cases h1 : i + 1 < l.length
    · refine ⟨l[i + 1], .item (i + 1), ?_, h1⟩
      simp [next_elem, next_buffer, list_first_entry, list_next, h1, elem_at]
    · have h2 : i + 1 = l.length := by omega
      refine ⟨ov, .head, ?_, trivial⟩
      simp [next_elem, next_buffer, list_first_entry, list_next, h2, elem_at]

theorem hc_advance_valid (hd : host_data) (r : hc_ref) (ov : dma_sg_elem)
    (hh : hd.host.valid) (hl : hd.loc.valid) :
    ∃ e hd1, hc_advance hd r ov = some (e, hd1) ∧ hd1.host.valid ∧ hd1.loc.valid ∧
      hd1.config = hd.config ∧ hd1.complete = hd.complete ∧ hd1.period = hd.period ∧
      hd1.dma_buffer = hd.dma_buffer ∧ hd1.source = hd.source ∧ hd1.sink = hd.sink ∧
      hd1.params = hd.params ∧ hd1.host_pos = hd.host_pos := by
  cases r with
  | host =>
    obtain ⟨e, p, he, hv⟩ := next_elem_valid hd.host ov hh
    refine ⟨e, hd.set_hc .host
      { ({ hd.host with current := p } : hc_buf) with current_end := u32 (e.src + e.size) },
      ?_, ?_⟩
    · simp only [hc_advance, host_data.hc, he]
    · exact ⟨hv, hl, rfl, rfl, rfl, rfl, rfl, rfl, rfl, rfl⟩
  | loc =>
    obtain ⟨e, p, he, hv⟩ := next_elem_valid hd.loc ov hl
    refine ⟨e, hd.set_hc .loc
      { ({ hd.loc with current := p } : hc_buf) with current_end := u32 (e.src + e.size) },
      ?_, ?_⟩
    · simp only [hc_advance, host_data.hc, he]
    · exact ⟨hh, hv, rfl, rfl, rfl, rfl, rfl, rfl, rfl, rfl⟩

theorem host_dma_cb_source_valid (hd : host_data) (size : Nat) (ov : overlays)
    (hh : hd.host.valid) (hl : hd.loc.valid) :
    ∃ hd1, host_dma_cb_source hd size ov = some hd1 ∧ hd1.host.valid ∧ hd1.loc.valid ∧
      hd1.complete = hd.complete ∧ hd1.period = hd.period ∧
      hd1.dma_buffer = hd.dma_buffer ∧ hd1.params = hd.params ∧ hd1.host_pos = hd.host_pos := by
  unfold host_dma_cb_source
  simp only []
  split
  · obtain ⟨e, hd1, he, h1, h2, -, h4, h5, h6, -, -, h9, h10⟩ :=
      hc_advance_valid hd hd.source (ov.of hd.source) hh hl
    rw [he]
    exact ⟨_, rfl, h1, h2, h4, h5, h6, h9, h10⟩
  · exact ⟨_, rfl, hh, hl, rfl, rfl, rfl, rfl, rfl⟩

theorem host_dma_cb_sink_valid (hd : host_data) (size : Nat) (ov : overlays)
    (hh : hd.host.valid) (hl : hd.loc.valid) :
    ∃ hd1, host_dma_cb_sink hd size ov = some hd1 ∧ hd1.host.valid ∧ hd1.loc.valid ∧
      hd1.complete = hd.complete ∧ hd1.period = hd.period ∧
      hd1.dma_buffer = hd.dma_buffer ∧ hd1.params = hd.params ∧ hd1.host_pos = hd.host_pos := by
  unfold host_dma_cb_sink
  simp only []
  split
  · obtain ⟨e, hd1, he, h1, h2, -, h4, h5, h6, -, -, h9, h10⟩ :=
      hc_advance_valid hd hd.sink (ov.of hd.sink) hh hl
    rw [he]
    exact ⟨_, rfl, h1, h2, h4, h5, h6, h9, h10⟩
  · exact ⟨_, rfl, hh, hl, rfl, rfl, rfl, rfl, rfl⟩

theorem host_dma_cb_finish_frame (dev : comp_dev) (q : dma_irq) (hpos : dev.hd.host_pos ≠ 0) :
    ∃ dev1 log, host_dma_cb_finish dev q = some (dev1, log) ∧
      dev1.hd.host = dev.hd.host ∧ dev1.hd.loc = dev.hd.loc ∧ dev1.period = dev.period ∧
      dev1.hd.params = dev.hd.params ∧ dev1.hd.host_pos = dev.hd.host_pos ∧
      dev1.hd.complete = ⟨1, dev.hd.complete.timeout⟩ ∧ log.filterMap call.step = [] := by
  obtain ⟨hd, bsink, bsource⟩ := dev
  obtain ⟨config, complete, period, dma_buffer, host, loc, host_size, host_pos, source, sink,
    params⟩ := hd
  have hp : ¬ host_pos = 0 := hpos
  cases dma_buffer <;> cases period <;> rename_i b <;> cases b <;>
    simp only [host_dma_cb_finish, hp, if_false] <;>
    refine ⟨_, _, rfl, ?_⟩ <;>
    simp [comp_dev.set_dma_buffer, comp_dev.dma_buffer, comp_dev.period,
      comp_dev.buffer, comp_update_buffer, wait_completed, call.step] <;>
    split <;> rfl

/-- On a configured engine whose host position pointer is set the completion
callback is defined; it leaves the engine configured, keeps the period, the
stream parameters and the host position pointer, sets the completion flag and
makes no call that belongs to a transfer. -/
theorem host_dma_cb_configured (dev : comp_dev) (q : dma_irq) (hc : configured dev)
    (hpos : dev.hd.host_pos ≠ 0) :
    ∃ dev1 log, host_dma_cb dev q = some (dev1, log) ∧ dev_frame dev dev1 ∧
      dev1.hd.complete = ⟨1, dev.hd.complete.timeout⟩ ∧ log.filterMap call.step = [] := by
  obtain ⟨hh, hl, hn⟩ := hc
  obtain ⟨hd1, e1, hh1, hl1, hc1, hp1, hb1, hpa1, hq1⟩ :=
    host_dma_cb_source_valid dev.hd dev.period.size q.ov hh hl
  obtain ⟨hd2, e2, hh2, hl2, hc2, hp2, hb2, hpa2, hq2⟩ :=
    host_dma_cb_sink_valid hd1 dev.period.size q.ov hh1 hl1
  have hpos2 : ({ dev with hd := hd2 } : comp_dev).hd.host_pos ≠ 0 := by
    show hd2.host_pos ≠ 0
    rw [hq2, hq1]; exact hpos
  obtain ⟨dev1, log, e3, f1, f2, f3, f4, f5, f6, f7⟩ :=
    host_dma_cb_finish_frame { dev with hd := hd2 } q hpos2
  have hper : ({ dev with hd := hd2 } : comp_dev).period = dev.period := by
    simp only [comp_dev.period, comp_dev.buffer, hp2, hp1]
  refine ⟨dev1, log, ?_, ⟨⟨?_, ?_, ?_⟩, ?_, ?_, ?_⟩, ?_, f7⟩
  · simp only [host_dma_cb, e1, e2, e3]
  · rw [f1]; exact hh2
  · rw [f2]; exact hl2
  · rw [f3, hper]; exact hn
  · rw [f3, hper]
  · rw [f4]; simp only [hpa2, hpa1]
  · rw [f5]; simp only [hq2, hq1]
  · rw [f6]; simp only [hc2, hc1]

/-- On a configured engine whose host position pointer is null the completion
callback stores through the null pointer. -/
theorem host_dma_cb_null (dev : comp_dev) (q : dma_irq) (hc : configured dev)
    (hpos : dev.hd.host_pos = 0) : host_dma_cb dev q = none := by
  obtain ⟨hh, hl, hn⟩ := hc
  obtain ⟨hd1, e1, hh1, hl1, hc1, hp1, hb1, hpa1, hq1⟩ :=
    host_dma_cb_source_valid dev.hd dev.period.size q.ov hh hl
  obtain ⟨hd2, e2, hh2, hl2, hc2, hp2, hb2, hpa2, hq2⟩ :=
    host_dma_cb_sink_valid hd1 dev.period.size q.ov hh1 hl1
  have hpos2 : hd2.host_pos = 0 := by
    rw [hq2, hq1]; exact hpos
  simp only [host_dma_cb, e1, e2, host_dma_cb_finish, hpos2, if_true]

theorem dev_frame_refl (dev : comp_dev) (hc : configured dev) : dev_frame dev dev :=
  ⟨hc, rfl, rfl, rfl⟩

theorem dev_frame_trans (a b c : comp_dev) (h1 : dev_frame a b) (h2 : dev_frame b c) :
    dev_frame a c :=
  ⟨h2.1, h2.2.1.trans h1.2.1, h2.2.2.1.trans h1.2.2.1, h2.2.2.2.trans h1.2.2.2⟩

theorem dev_frame_set_complete (dev : comp_dev) (c : completion_t) (hc : configured dev) :
    dev_frame dev { dev with hd := { dev.hd with complete := c } } :=
  ⟨hc, rfl, rfl, rfl⟩

theorem any_dma_false_of_other (v : List irq) (hv : ∀ q ∈ v, q = irq.other) :
    v.any irq.is_dma = false ∧ irq.timer ∉ v := by
  constructor
  · rw [List.any_eq_false]
    intro q hq
    rw [hv q hq]
    simp [irq.is_dma]
  · intro hq
    have := hv _ hq
    cases this

/-- The handlers of one batch of interrupts on a configured engine, when the
host position pointer is set or no interrupt of the batch is a DMA
completion. -/
theorem run_isrs_host (w : List irq) :
    ∀ dev, configured dev → (dev.hd.host_pos ≠ 0 ∨ w.any irq.is_dma = false) →
      ∃ dev1 log, run_isrs host_ctx w dev = some (dev1, log) ∧ dev_frame dev dev1 ∧
        log.filterMap call.step = [] ∧
        dev1.hd.complete = ⟨if w.any irq.is_dma then 1 else dev.hd.complete.complete,
                            if irq.timer ∈ w then 1 else dev.hd.complete.timeout⟩ := by
  induction w with
  | nil =>
    intro dev hc _
    exact ⟨dev, [], rfl, dev_frame_refl dev hc, rfl, by simp⟩
  | cons q qs ih =>
    intro dev hc hp
    cases q with
    | dma d =>
      have hpos : dev.hd.host_pos ≠ 0 := by
        rcases hp with hp | hp
        · exact hp
        · simp [irq.is_dma] at hp
      obtain ⟨dev1, l1, h1, f1, c1, s1⟩ := host_dma_cb_configured dev d hc hpos
      obtain ⟨dev2, l2, h2, f2, s2, c2⟩ := ih dev1 f1.1 (Or.inl (by rw [f1.2.2.2]; exact hpos))
      refine ⟨dev2, l1 ++ l2, ?_, dev_frame_trans _ _ _ f1 f2, ?_, ?_⟩
      · simp only [run_isrs]
        rw [show host_ctx.isr (irq.dma d) dev = host_dma_cb dev d from rfl, h1]
        simp only [h2]
      · simp [List.filterMap_append, s1, s2]
      · rw [c2, c1]
        simp [irq.is_dma]
    | timer =>
      have hc1 : configured { dev with hd := { dev.hd with complete := _wait_cb dev.hd.complete } } := hc
      have hp1 : ({ dev with hd := { dev.hd with complete := _wait_cb dev.hd.complete } } :
          comp_dev).hd.host_pos ≠ 0 ∨ qs.any irq.is_dma = false := by
        rcases hp with hp | hp
        · exact Or.inl hp
        · right; simpa [irq.is_dma] using hp
      obtain ⟨dev2, l2, h2, f2, s2, c2⟩ := ih _ hc1 hp1
      refine ⟨dev2, [] ++ l2, ?_, dev_frame_trans _ _ _ (dev_frame_set_complete dev _ hc) f2, ?_, ?_⟩
      · simp only [run_isrs]
        rw [show host_ctx.isr irq.timer dev =
          some ({ dev with hd := { dev.hd with complete := _wait_cb dev.hd.complete } }, []) from rfl]
        simp only [h2]
      · simpa using s2
      · rw [c2]
        simp [irq.is_dma, _wait_cb]
    | other =>
      have hp1 : dev.hd.host_pos ≠ 0 ∨ qs.any irq.is_dma = false := by
        rcases hp with hp | hp
        · exact Or.inl hp
        · right; simpa [irq.is_dma] using hp
      obtain ⟨dev2, l2, h2, f2, s2, c2⟩ := ih dev hc hp1
      refine ⟨dev2, [] ++ l2, ?_, f2, ?_, ?_⟩
      · simp only [run_isrs]
        rw [show host_ctx.isr irq.other dev = some (dev, []) from rfl]
        simp only [h2]
      · simpa using s2
      · rw [c2]
        simp [irq.is_dma]

/-- The handlers of a batch of interrupts with a DMA completion among them, on a
configured engine whose host position pointer is null: the completion callback
stores through the null pointer. -/
theorem run_isrs_host_null (w : List irq) :
    ∀ dev, configured dev → dev.hd.host_pos = 0 → w.any irq.is_dma = true →
      run_isrs host_ctx w dev = none := by
  induction w with
  | nil => intro dev _ _ h; simp at h
  | cons q qs ih =>
    intro dev hc hpos h
    cases q with
    | dma d =>
      simp only [run_isrs]
      rw [show host_ctx.isr (irq.dma d) dev = host_dma_cb dev d from rfl,
        host_dma_cb_null dev d hc hpos]
    | timer =>
      have hc1 : configured { dev with hd := { dev.hd with complete := _wait_cb dev.hd.complete } } := hc
      have h1 : qs.any irq.is_dma = true := by simpa [irq.is_dma] using h
      simp only [run_isrs]
      rw [show host_ctx.isr irq.timer dev =
        some ({ dev with hd := { dev.hd with complete := _wait_cb dev.hd.complete } }, []) from rfl]
      simp only [ih _ hc1 hpos h1]
    | other =>
      have h1 : qs.any irq.is_dma = true := by simpa [irq.is_dma] using h
      simp only [run_isrs]
      rw [show host_ctx.isr irq.other dev = some (dev, []) from rfl]
      simp only [ih _ hc hpos h1]

theorem wait_loop_host_done (run : List (List irq)) (dev : comp_dev)
    (h : dev.hd.complete.complete ≠ 0 ∨ dev.hd.complete.timeout ≠ 0) :
    wait_loop host_ctx run dev = some (dev, []) := by
  have h1 : (host_ctx.comp dev).complete ≠ 0 ∨ (host_ctx.comp dev).timeout ≠ 0 := h
  cases run <;> simp only [wait_loop, h1, if_true]

theorem wait_loop_host (pre : List (List irq)) (w : List irq) (post : List (List irq))
    (hw : w.any irq.is_dma = true ∨ irq.timer ∈ w) :
    ∀ dev, configured dev → (dev.hd.host_pos ≠ 0 ∨ w.any irq.is_dma = false) →
      dev.hd.complete = ⟨0, 0⟩ →
      (∀ v ∈ pre, ∀ q ∈ v, q = irq.other) →
      ∃ dev1 log, wait_loop host_ctx (pre ++ w :: post) dev = some (dev1, log) ∧
        dev_frame dev dev1 ∧ log.filterMap call.step = [] ∧
        dev1.hd.complete = ⟨if w.any irq.is_dma then 1 else 0, if irq.timer ∈ w then 1 else 0⟩ := by
  induction pre with
  | nil =>
    intro dev hc hp h0 _
    obtain ⟨dev1, l1, h1, f1, s1, c1⟩ := run_isrs_host w dev hc hp
    have hnd : ¬ ((host_ctx.comp dev).complete ≠ 0 ∨ (host_ctx.comp dev).timeout ≠ 0) := by
      show ¬ (dev.hd.complete.complete ≠ 0 ∨ dev.hd.complete.timeout ≠ 0)
      rw [h0]; simp
    have hdone : dev1.hd.complete.complete ≠ 0 ∨ dev1.hd.complete.timeout ≠ 0 := by
      rw [c1]
      rcases hw with hw | hw
      · left; simp [hw]
      · right; simp [hw]
    refine ⟨dev1, call.wait_for_interrupt :: (l1 ++ []), ?_, f1, ?_, ?_⟩
    · simp only [List.nil_append, wait_loop, hnd, if_false, h1, wait_loop_host_done post dev1 hdone]
    · simp [List.filterMap_cons, call.step, s1]
    · rw [c1, h0]
  | cons v pre ih =>
    intro dev hc hp h0 hpre
    have hv := any_dma_false_of_other v (hpre v (List.mem_cons_self _ _))
    obtain ⟨dev1, l1, h1, f1, s1, c1⟩ := run_isrs_host v dev hc (Or.inr hv.1)
    have hnd : ¬ ((host_ctx.comp dev).complete ≠ 0 ∨ (host_ctx.comp dev).timeout ≠ 0) := by
      show ¬ (dev.hd.complete.complete ≠ 0 ∨ dev.hd.complete.timeout ≠ 0)
      rw [h0]; simp
    have c1' : dev1.hd.complete = ⟨0, 0⟩ := by
      rw [c1, h0]
      simp [hv.1, hv.2]
    have hp1 : dev1.hd.host_pos ≠ 0 ∨ w.any irq.is_dma = false := by
      rcases hp with hp | hp
      · left; rw [f1.2.2.2]; exact hp
      · exact Or.inr hp
    obtain ⟨dev2, l2, h2, f2, s2, c2⟩ :=
      ih dev1 f1.1 hp1 c1' (fun u hu => hpre u (List.mem_cons_of_mem _ hu))
    refine ⟨dev2, call.wait_for_interrupt :: (l1 ++ l2), ?_, dev_frame_trans _ _ _ f1 f2, ?_, c2⟩
    · show wait_loop host_ctx (v :: (pre ++ w :: post)) dev = _
      simp only [wait_loop, hnd, if_false, h1, h2]
    · simp [List.filterMap_cons, List.filterMap_append, call.step, s1, s2]

theorem wait_loop_host_null (pre : List (List irq)) (w : List irq) (post : List (List irq))
    (hw : w.any irq.is_dma = true) :
    ∀ dev, configured dev → dev.hd.host_pos = 0 → dev.hd.complete = ⟨0, 0⟩ →
      (∀ v ∈ pre, ∀ q ∈ v, q = irq.other) →
      wait_loop host_ctx (pre ++ w :: post) dev = none := by
  induction pre with
  | nil =>
    intro dev hc hpos h0 _
    have hnd : ¬ ((host_ctx.comp dev).complete ≠ 0 ∨ (host_ctx.comp dev).timeout ≠ 0) := by
      show ¬ (dev.hd.complete.complete ≠ 0 ∨ dev.hd.complete.timeout ≠ 0)
      rw [h0]; simp
    simp only [List.nil_append, wait_loop, hnd, if_false, run_isrs_host_null w dev hc hpos hw]
  | cons v pre ih =>
    intro dev hc hpos h0 hpre
    have hv := any_dma_false_of_other v (hpre v (List.mem_cons_self _ _))
    obtain ⟨dev1, l1, h1, f1, s1, c1⟩ := run_isrs_host v dev hc (Or.inr hv.1)
    have hnd : ¬ ((host_ctx.comp dev).complete ≠ 0 ∨ (host_ctx.comp dev).timeout ≠ 0) := by
      show ¬ (dev.hd.complete.complete ≠ 0 ∨ dev.hd.complete.timeout ≠ 0)
      rw [h0]; simp
    have c1' : dev1.hd.complete = ⟨0, 0⟩ := by
      rw [c1, h0]
      simp [hv.1, hv.2]
    have h2 := ih dev1 f1.1 (by rw [f1.2.2.2]; exact hpos) c1'
      (fun u hu => hpre u (List.mem_cons_of_mem _ hu))
    show wait_loop host_ctx (v :: (pre ++ w :: post)) dev = _
    simp only [wait_loop, hnd, if_false, h1, h2]

/-- The timed wait of a preload transfer on a configured engine whose
completion flag was cleared: a run in which the transfer completes gives 0
when the host position pointer is set, and is a store through the null pointer
when it is null; a run that times out gives `-ETIME`; the wait counts as one
step. -/
theorem wait_host (dev : comp_dev) (hc : configured dev) (h0 : dev.hd.complete.complete = 0)
    (run : wait_run irq) :
    (run_completes run → dev.hd.host_pos ≠ 0 →
      ∃ dev1 log, wait_for_completion_timeout host_ctx dev run = some (0, dev1, log) ∧
        dev_frame dev dev1 ∧ log.filterMap call.step = [step.wait]) ∧
    (run_times_out run →
      ∃ dev1 log, wait_for_completion_timeout host_ctx dev run = some (-ETIME, dev1, log) ∧
        dev_frame dev dev1 ∧ log.filterMap call.step = [step.wait]) ∧
    (run_completes run → dev.hd.host_pos = 0 →
      wait_for_completion_timeout host_ctx dev run = none) := by
  have hclr : ∀ d : comp_dev, host_ctx.set_comp d { host_ctx.comp d with timeout := 0 } =
      { d with hd := { d.hd with complete := ⟨d.hd.complete.complete, 0⟩ } } := fun _ => rfl
  refine ⟨?_, ?_, ?_⟩
  · intro hrun hpos
    by_cases hE : run.early.any irq.is_dma = true
    · obtain ⟨dev0, le, he, fe, se, ce⟩ := run_isrs_host run.early dev hc (Or.inl hpos)
      have hdone : ({ dev0 with hd := { dev0.hd with
          complete := ⟨dev0.hd.complete.complete, 0⟩ } } : comp_dev).hd.complete.complete ≠ 0 ∨
          ({ dev0 with hd := { dev0.hd with
          complete := ⟨dev0.hd.complete.complete, 0⟩ } } : comp_dev).hd.complete.timeout ≠ 0 := by
        left
        show dev0.hd.complete.complete ≠ 0
        rw [ce]; simp [hE]
      have hcomp : (host_ctx.comp ({ dev0 with hd := { dev0.hd with
          complete := ⟨dev0.hd.complete.complete, 0⟩ } } : comp_dev)).complete ≠ 0 := by
        show dev0.hd.complete.complete ≠ 0
        rw [ce]; simp [hE]
      refine ⟨({ dev0 with hd := { dev0.hd with
          complete := ⟨dev0.hd.complete.complete, 0⟩ } } : comp_dev),
        [call.work_schedule_default (host_ctx.comp dev).timeout] ++ le ++ [] ++
        [call.work_cancel_default], ?_,
        dev_frame_trans _ _ _ fe (dev_frame_set_complete dev0 ⟨dev0.hd.complete.complete, 0⟩ fe.1),
        ?_⟩
      · simp only [wait_for_completion_timeout, he, hclr, wait_loop_host_done _ _ hdone, hcomp,
          ne_eq, not_false_eq_true, if_true]
      · simp [List.filterMap_cons, List.filterMap_append, call.step, se]
    · have hE0 : run.early.any irq.is_dma = false := by simpa using hE
      obtain ⟨dev0, le, he, fe, se, ce⟩ := run_isrs_host run.early dev hc (Or.inr hE0)
      rcases hrun with ⟨q, hq, hqd⟩ | ⟨pre, w, post, hwk, hpre, q, hq, hqd⟩
      · exact absurd (List.any_eq_true.mpr ⟨q, hq, hqd⟩) hE
      · have hw : w.any irq.is_dma = true := List.any_eq_true.mpr ⟨q, hq, hqd⟩
        have hc0 : configured { dev0 with hd := { dev0.hd with
            complete := ⟨dev0.hd.complete.complete, 0⟩ } } := fe.1
        have hz : ({ dev0 with hd := { dev0.hd with
            complete := ⟨dev0.hd.complete.complete, 0⟩ } } : comp_dev).hd.complete = ⟨0, 0⟩ := by
          show (⟨dev0.hd.complete.complete, 0⟩ : completion_t) = ⟨0, 0⟩
          rw [ce]; simp [hE0, h0]
        obtain ⟨dev1, l1, h1, f1, s1, c1⟩ :=
          wait_loop_host pre w post (Or.inl hw) _ hc0
            (Or.inl (by show dev0.hd.host_pos ≠ 0; rw [fe.2.2.2]; exact hpos)) hz hpre
        have hcomp : (host_ctx.comp dev1).complete ≠ 0 := by
          show dev1.hd.complete.complete ≠ 0
          rw [c1]; simp [hw]
        refine ⟨dev1, [call.work_schedule_default (host_ctx.comp dev).timeout] ++ le ++ l1 ++
          [call.work_cancel_default], ?_,
          dev_frame_trans _ _ _ (dev_frame_trans _ _ _ fe (dev_frame_set_complete dev0 ⟨dev0.hd.complete.complete, 0⟩ fe.1)) f1,
          ?_⟩
        · simp only [wait_for_completion_timeout, he, hclr, hwk, h1, hcomp, ne_eq,
            not_false_eq_true, if_true]
        · simp [List.filterMap_cons, List.filterMap_append, call.step, se, s1]
  · rintro ⟨hearly, pre, w, post, hwk, hpre, ht, hnd⟩
    have hE0 : run.early.any irq.is_dma = false := by
      rw [List.any_eq_false]
      intro q hq
      simp [hearly q hq]
    have hw : w.any irq.is_dma = false := by
      rw [List.any_eq_false]
      intro q hq
      simp [hnd q hq]
    obtain ⟨dev0, le, he, fe, se, ce⟩ := run_isrs_host run.early dev hc (Or.inr hE0)
    have hc0 : configured { dev0 with hd := { dev0.hd with
        complete := ⟨dev0.hd.complete.complete, 0⟩ } } := fe.1
    have hz : ({ dev0 with hd := { dev0.hd with
        complete := ⟨dev0.hd.complete.complete, 0⟩ } } : comp_dev).hd.complete = ⟨0, 0⟩ := by
      show (⟨dev0.hd.complete.complete, 0⟩ : completion_t) = ⟨0, 0⟩
      rw [ce]; simp [hE0, h0]
    obtain ⟨dev1, l1, h1, f1, s1, c1⟩ :=
      wait_loop_host pre w post (Or.inr ht) _ hc0 (Or.inr hw) hz hpre
    have hcomp : ¬ (host_ctx.comp dev1).complete ≠ 0 := by
      show ¬ dev1.hd.complete.complete ≠ 0
      rw [c1]; simp [hw]
    refine ⟨dev1, [call.work_schedule_default (host_ctx.comp dev).timeout] ++ le ++ l1, ?_,
      dev_frame_trans _ _ _ (dev_frame_trans _ _ _ fe (dev_frame_set_complete dev0 ⟨dev0.hd.complete.complete, 0⟩ fe.1)) f1,
      ?_⟩
    · simp only [wait_for_completion_timeout, he, hclr, hwk, h1, hcomp, if_false]
    · simp [List.filterMap_cons, List.filterMap_append, call.step, se, s1]
  · intro hrun hpos
    by_cases hE : run.early.any irq.is_dma = true
    · simp only [wait_for_completion_timeout, run_isrs_host_null run.early dev hc hpos hE]
    · have hE0 : run.early.any irq.is_dma = false := by simpa using hE
      obtain ⟨dev0, le, he, fe, se, ce⟩ := run_isrs_host run.early dev hc (Or.inr hE0)
      rcases hrun with ⟨q, hq, hqd⟩ | ⟨pre, w, post, hwk, hpre, q, hq, hqd⟩
      · exact absurd (List.any_eq_true.mpr ⟨q, hq, hqd⟩) hE
      · have hw : w.any irq.is_dma = true := List.any_eq_true.mpr ⟨q, hq, hqd⟩
        have hc0 : configured { dev0 with hd := { dev0.hd with
            complete := ⟨dev0.hd.complete.complete, 0⟩ } } := fe.1
        have hz : ({ dev0 with hd := { dev0.hd with
            complete := ⟨dev0.hd.complete.complete, 0⟩ } } : comp_dev).hd.complete = ⟨0, 0⟩ := by
          show (⟨dev0.hd.complete.complete, 0⟩ : completion_t) = ⟨0, 0⟩
          rw [ce]; simp [hE0, h0]
        have h1 := wait_loop_host_null pre w post hw _ hc0
          (by show dev0.hd.host_pos = 0; rw [fe.2.2.2]; exact hpos) hz hpre
        simp only [wait_for_completion_timeout, he, hclr, hwk, h1]

theorem host_preload_loop_ok (runs : Nat → wait_run irq) (k : Nat) :
    ∀ i dev, configured dev → dev.hd.host_pos ≠ 0 →
      (∀ j < k, run_completes (runs (i + j))) →
      ∃ dev1 log, host_preload_loop runs k i dev = some (0, dev1, log) ∧ dev_frame dev dev1 ∧
        log.filterMap call.step = transfers k := by
  induction k with
  | zero =>
    intro i dev hc _ _
    exact ⟨dev, [], rfl, dev_frame_refl dev hc, rfl⟩
  | succ k ih =>
    intro i dev hc hpos hruns
    have hc1 : configured { dev with hd := { dev.hd with complete := ⟨0, 1⟩ } } := hc
    obtain ⟨dev1, l1, h1, f1, s1⟩ :=
      (wait_host _ hc1 rfl (runs i)).1 (by simpa using hruns 0 (Nat.succ_pos k)) hpos
    have hpos1 : dev1.hd.host_pos ≠ 0 := by rw [f1.2.2.2]; exact hpos
    obtain ⟨dev2, l2, h2, f2, s2⟩ := ih (i + 1) dev1 f1.1 hpos1 (fun j hj => by
      have := hruns (j + 1) (Nat.succ_lt_succ hj)
      rwa [show i + (j + 1) = i + 1 + j by omega] at this)
    refine ⟨dev2, [call.work_init] ++ [call.dma_set_config dev.hd.config, call.dma_start] ++ l1 ++ l2,
      ?_, dev_frame_trans _ _ _ (dev_frame_trans _ _ _ (dev_frame_set_complete dev _ hc) f1) f2, ?_⟩
    · simp only [host_preload_loop, wait_init]
      rw [h1]
      simp only [lt_self_iff_false, if_false, h2]
    · simp [List.filterMap_append, List.filterMap_cons, call.step, s1, s2, transfers,
        List.replicate_succ]

theorem host_preload_loop_timeout (runs : Nat → wait_run irq) (m : Nat) :
    ∀ k i dev, configured dev → (dev.hd.host_pos ≠ 0 ∨ m = 0) → m < k →
      (∀ j < m, run_completes (runs (i + j))) →
      run_times_out (runs (i + m)) →
      ∃ dev1 log, host_preload_loop runs k i dev = some (-ETIME, dev1, log) ∧
        dev_frame dev dev1 ∧ log.filterMap call.step = transfers (m + 1) := by
  induction m with
  | zero =>
    intro k i dev hc _ hk _ hto
    obtain ⟨k, rfl⟩ : ∃ k1, k = k1 + 1 := ⟨k - 1, by omega⟩
    have hc1 : configured { dev with hd := { dev.hd with complete := ⟨0, 1⟩ } } := hc
    obtain ⟨dev1, l1, h1, f1, s1⟩ := (wait_host _ hc1 rfl (runs i)).2.1 (by simpa using hto)
    refine ⟨dev1, [call.work_init] ++ [call.dma_set_config dev.hd.config, call.dma_start] ++ l1,
      ?_, dev_frame_trans _ _ _ (dev_frame_set_complete dev _ hc) f1, ?_⟩
    · simp only [host_preload_loop, wait_init]
      rw [h1]
      simp [ETIME]
    · simp [List.filterMap_append, List.filterMap_cons, call.step, s1, transfers]
  | succ m ih =>
    intro k i dev hc hp hk hruns hto
    have hpos : dev.hd.host_pos ≠ 0 := by
      rcases hp with hp | hp
      · exact hp
      · omega
    obtain ⟨k, rfl⟩ : ∃ k1, k = k1 + 1 := ⟨k - 1, by omega⟩
    have hc1 : configured { dev with hd := { dev.hd with complete := ⟨0, 1⟩ } } := hc
    obtain ⟨dev1, l1, h1, f1, s1⟩ :=
      (wait_host _ hc1 rfl (runs i)).1 (by simpa using hruns 0 (Nat.succ_pos m)) hpos
    have hpos1 : dev1.hd.host_pos ≠ 0 := by rw [f1.2.2.2]; exact hpos
    obtain ⟨dev2, l2, h2, f2, s2⟩ := ih k (i + 1) dev1 f1.1 (Or.inl hpos1) (by omega)
      (fun j hj => by
        have := hruns (j + 1) (Nat.succ_lt_succ hj)
        rwa [show i + (j + 1) = i + 1 + j by omega] at this)
      (by rwa [show i + (m + 1) = i + 1 + m by omega] at hto)
    refine ⟨dev2, [call.work_init] ++ [call.dma_set_config dev.hd.config, call.dma_start] ++ l1 ++ l2,
      ?_, dev_frame_trans _ _ _ (dev_frame_trans _ _ _ (dev_frame_set_complete dev _ hc) f1) f2, ?_⟩
    · simp only [host_preload_loop, wait_init]
      rw [h1]
      simp only [lt_self_iff_false, if_false, h2]
    · simp [List.filterMap_append, List.filterMap_cons, call.step, s1, s2, transfers,
        List.replicate_succ]

theorem preload_count (n : Nat) (h1 : 1 ≤ n) (h2 : n ≤ INT_MAX) :
    to_int (u32 (n + 4294967295)) = ((n - 1 : Nat) : Int) := by
  unfold INT_MAX at h2
  have h3 : u32 (n + 4294967295) = n - 1 := by unfold u32; omega
  have h4 : u32 (n - 1) = n - 1 := by unfold u32; omega
  unfold to_int
  rw [h3, h4]
  have : n - 1 ≤ INT_MAX := by unfold INT_MAX; omega
  simp [this]

theorem create_local_elems_loop_count (rmalloc : Nat → Option dma_sg_elem) (direction base size : Nat)
    (k : Nat) : ∀ i l l1, create_local_elems_loop rmalloc direction base size k i l = some (some l1) →
      k = 0 ∨ i + k ≤ INT_MAX := by
  induction k with
  | zero => intro i l l1 _; exact Or.inl rfl
  | succ k ih =>
    intro i l l1 h
    right
    simp only [create_local_elems_loop] at h
    cases hr : rmalloc i with
    | none => simp [hr] at h
    | some e =>
      simp only [hr] at h
      by_cases hi : i + 1 ≤ INT_MAX
      · simp only [hi, if_true] at h
        rcases ih _ _ _ h with h0 | h0
        · omega
        · omega
      · simp [hi] at h

theorem first_entry_valid (hc : hc_buf) (ov : dma_sg_elem) :
    ∃ p e, list_first_entry hc.elem_list .head = some p ∧ elem_at hc.elem_list ov p = some e ∧
      ∀ ce, ({ hc with current := p, current_end := ce } : hc_buf).valid := by
  by_cases hl : hc.elem_list.length = 0
  · refine ⟨.head, ov, ?_, rfl, fun _ => trivial⟩
    simp [list_first_entry, list_next, hl]
  · have hpos : 0 < hc.elem_list.length := Nat.pos_of_ne_zero hl
    refine ⟨.item 0, hc.elem_list[0], ?_, ?_, fun _ => hpos⟩
    · simp [list_first_entry, list_next, hl]
    · simp [elem_at, hpos]

theorem host_params_setup_configured (dev : comp_dev) (ov : overlays)
    (hs : dev.hd.source ≠ dev.hd.sink) :
    ∃ dev1, host_params_setup dev ov = some (0, dev1) ∧ dev1.hd.host.valid ∧ dev1.hd.loc.valid ∧
      dev1.period = dev.period ∧ dev1.hd.params = dev.hd.params := by
  obtain ⟨hd, bsink, bsource⟩ := dev
  obtain ⟨config, complete, period, dma_buffer, host, loc, host_size, host_pos, source, sink,
    params⟩ := hd
  obtain ⟨ph, eh, hph, heh, hvh⟩ := first_entry_valid host ov.host
  obtain ⟨pl, el, hpl, hel, hvl⟩ := first_entry_valid loc ov.loc
  cases source <;> cases sink
  · exact absurd rfl hs
  · cases dma_buffer <;> cases period <;> rename_i b <;> cases b <;>
      simp only [host_params_setup, host_data.hc, host_data.set_hc, overlays.of, hph, heh, hpl, hel,
        comp_dev.set_dma_buffer, comp_dev.dma_buffer,
        Option.bind_eq_bind, Option.some_bind, Option.pure_def, bind_pure_comp] <;>
      exact ⟨_, rfl, hvh _, hvl _, rfl, rfl⟩
  · cases dma_buffer <;> cases period <;> rename_i b <;> cases b <;>
      simp only [host_params_setup, host_data.hc, host_data.set_hc, overlays.of, hph, heh, hpl, hel,
        comp_dev.set_dma_buffer, comp_dev.dma_buffer,
        Option.bind_eq_bind, Option.some_bind, Option.pure_def, bind_pure_comp] <;>
      exact ⟨_, rfl, hvh _, hvl _, rfl, rfl⟩
  · exact absurd rfl hs

/-- A successful `host_params` leaves a configured engine whose period is the
negotiated one and whose stream parameters are the given ones. -/
theorem host_params_configured (dev : comp_dev) (params : stream_params)
    (rmalloc : Nat → Option dma_sg_elem) (ov : overlays) (dev1 : comp_dev)
    (h : host_params dev params rmalloc ov = some (0, dev1)) :
    configured dev1 ∧ dev1.period = negotiated_period dev params ∧ dev1.hd.params = params := by
  unfold host_params at h
  simp only [] at h
  split at h
  · exact absurd h (by simp)
  split at h
  · simp [EINVAL] at h
  cases hcl : create_local_elems (host_params_bind dev params) params rmalloc with
  | none => simp [hcl] at h
  | some r =>
    obtain ⟨err, dev2⟩ := r
    simp only [hcl] at h
    unfold create_local_elems at hcl
    cases hloop : create_local_elems_loop rmalloc params.direction
        (host_params_bind dev params).dma_buffer.self (host_params_bind dev params).period.size
        (host_params_bind dev params).period.number 0 (host_params_bind dev params).hd.loc with
    | none => simp [hloop] at hcl
    | some o =>
      cases o with
      | none =>
        simp only [hloop, Option.some.injEq, Prod.mk.injEq] at hcl
        obtain ⟨rfl, rfl⟩ := hcl
        simp [ENOMEM] at h
      | some l =>
        simp only [hloop, Option.some.injEq, Prod.mk.injEq] at hcl
        obtain ⟨rfl, rfl⟩ := hcl
        simp only [lt_self_iff_false, if_false] at h
        have hnum : (host_params_bind dev params).period.number ≤ INT_MAX := by
          rcases create_local_elems_loop_count _ _ _ _ _ _ _ _ hloop with h0 | h0
          · rw [h0]; exact Nat.zero_le _
          · simpa using h0
        have hsrc : ({ host_params_bind dev params with
            hd := { (host_params_bind dev params).hd with loc := l } } : comp_dev).hd.source ≠
            ({ host_params_bind dev params with
            hd := { (host_params_bind dev params).hd with loc := l } } : comp_dev).hd.sink := by
          unfold host_params_bind
          split <;> simp
        obtain ⟨dev3, e3, v1, v2, p3, q3⟩ := host_params_setup_configured _ ov hsrc
        rw [e3] at h
        simp only [Option.some.injEq, Prod.mk.injEq, true_and] at h
        subst h
        have hper : ({ host_params_bind dev params with
            hd := { (host_params_bind dev params).hd with loc := l } } : comp_dev).period =
            (host_params_bind dev params).period := rfl
        rw [hper] at p3
        refine ⟨⟨v1, v2, ?_⟩, ?_, ?_⟩
        · rw [p3]; exact hnum
        · rw [p3, host_params_bind_period]
        · rw [q3]; exact (host_params_bind_hd dev params).2.2.2.1

theorem ex_configured_eq :
    host_params ex_host_4 ex_playback ex_rmalloc ex_ov = some (0, ex_configured) := by
  rfl

theorem ex_run_ok_completes : run_completes ex_run_ok :=
  Or.inr ⟨[[.other]], [.dma ex_irq], [], rfl, by simp, ⟨.dma ex_irq, by simp, rfl⟩⟩

theorem ex_run_timeout_times_out : run_times_out ex_run_timeout :=
  ⟨by simp [ex_run_timeout], [[.other]], [.timer], [], rfl, by simp, by simp,
    by simp [irq.is_dma]⟩

theorem ex_mapped_configured : configured ex_mapped ∧ ex_mapped.hd.host_pos = 0x9000 :=
  ⟨(host_params_configured _ _ _ _ _ ex_configured_eq).1, rfl⟩

/-- C11: for every command number, known or not, every data argument and every
result of the DMA driver call, `host_cmd` returns 0.  Every command other than
`COMP_CMD_IPC_MMAP_RPOS` leaves the whole engine state unchanged; with case
labels that differ pairwise, `COMP_CMD_IPC_MMAP_RPOS` sets `host_pos` to the
data argument, changes nothing else and calls no driver function.  Neither the
result nor the state depends on what the driver call returns. -/
theorem host_cmd_spec (T : cmd_table) (dev : comp_dev) (cmd : Int) (data : Nat)
    (driver_ret : Int) :
    (host_cmd T dev cmd data driver_ret).1 = 0 ∧
    (cmd ≠ T.COMP_CMD_IPC_MMAP_RPOS → (host_cmd T dev cmd data driver_ret).2.1 = dev) ∧
    (T.labels.Nodup → cmd = T.COMP_CMD_IPC_MMAP_RPOS →
      (host_cmd T dev cmd data driver_ret).2 =
        ({ dev with hd := { dev.hd with host_pos := data } }, [])) ∧
    (∀ r : Int, host_cmd T dev cmd data r = host_cmd T dev cmd data driver_ret) := by
  refine ⟨?_, ?_, ?_, ?_⟩
  · unfold host_cmd
    repeat' split
    all_goals rfl
  · intro h
    unfold host_cmd
    repeat' split
    all_goals rfl
  · intro hnd hc
    subst hc
    simp only [cmd_table.labels, List.nodup_cons, List.mem_cons, List.mem_singleton, not_or,
      List.not_mem_nil, not_false_eq_true, List.nodup_nil, and_true] at hnd
    obtain ⟨⟨-, -, -, -, -, -, h1⟩, ⟨-, -, -, -, -, h2⟩, ⟨-, -, -, -, h3⟩, ⟨-, -, -, h4⟩,
      ⟨-, -, h5⟩, ⟨-, h6⟩, h7⟩ := hnd
    simp only [host_cmd, Ne.symm h1, Ne.symm h2, Ne.symm h3, Ne.symm h4, Ne.symm h5, Ne.symm h6,
      Ne.symm h7, if_false, or_self, if_true]
  · intro r
    rfl

/-- C11 witness: with the example command numbers, the position command stores
the pointer 0x9000, and the pause, stop and an unknown command return 0 and
leave the state as it was. -/
theorem host_cmd_spec_witness :
    host_cmd ex_cmds ex_configured 200 0x9000 (-5) =
      (0, { ex_configured with hd := { ex_configured.hd with host_pos := 0x9000 } }, []) ∧
    host_cmd ex_cmds ex_configured 1 0 (-5) = (0, ex_configured, [call.dma_pause]) ∧
    host_cmd ex_cmds ex_configured 0 0 (-5) = (0, ex_configured, [call.dma_stop]) ∧
    host_cmd ex_cmds ex_configured 77 0 (-5) = (0, ex_configured, []) :=
  ⟨Prod.ext (host_cmd_spec ex_cmds ex_configured 200 0x9000 (-5)).1
      ((host_cmd_spec ex_cmds ex_configured 200 0x9000 (-5)).2.2.1 (by decide) rfl),
    by decide, by decide, by decide⟩

/-! ### C12: host_reset -/

/-- C12: `host_reset` returns 0 and leaves both lists empty and `host_size` zero;
a following `host_buffer` call whose allocation succeeds is accepted for a
segment of any size, which becomes the only segment of the host list and the
recorded `host_size`. -/
theorem host_reset_spec (dev : comp_dev) :
    (host_reset dev).1 = 0 ∧
    (host_reset dev).2.hd.host.elem_list = [] ∧
    (host_reset dev).2.hd.loc.elem_list = [] ∧
    (host_reset dev).2.hd.host_size = 0 ∧
    (∀ (elem a : dma_sg_elem),
      (host_buffer (host_reset dev).2 elem (some a)).1 = 0 ∧
      (host_buffer (host_reset dev).2 elem (some a)).2.hd.host_size = elem.size ∧
      (host_buffer (host_reset dev).2 elem (some a)).2.hd.host.elem_list = [elem]) := by
  refine ⟨rfl, rfl, rfl, rfl, ?_⟩
  intro elem a
  simp [host_buffer, host_reset, list_add_tail, list_free_all]

/-- C12 witness: the engine with four host segments of 512 bytes and four local
segments is reset; a segment of 128 bytes is accepted afterwards. -/
theorem host_reset_spec_witness :
    (host_reset ex_configured).1 = 0 ∧
    (host_reset ex_configured).2.hd.host.elem_list = [] ∧
    (host_reset ex_configured).2.hd.loc.elem_list = [] ∧
    (host_buffer (host_reset ex_configured).2 ⟨0x50000, 0, 128⟩ (some ⟨0, 0, 0⟩)).1 = 0 ∧
    (host_buffer (host_reset ex_configured).2 ⟨0x50000, 0, 128⟩ (some ⟨0, 0, 0⟩)).2.hd.host_size
      = 128 :=
  ⟨(host_reset_spec ex_configured).1, (host_reset_spec ex_configured).2.1,
    (host_reset_spec ex_configured).2.2.1,
    ((host_reset_spec ex_configured).2.2.2.2 ⟨0x50000, 0, 128⟩ ⟨0, 0, 0⟩).1,
    ((host_reset_spec ex_configured).2.2.2.2 ⟨0x50000, 0, 128⟩ ⟨0, 0, 0⟩).2.1⟩

/-! ### C13: at most one transfer in flight -/

theorem host_dma_cb_sets_complete (dev dev1 : comp_dev) (q : dma_irq) (log : List call)
    (h : host_dma_cb dev q = some (dev1, log)) : dev1.hd.complete.complete = 1 := by
  unfold host_dma_cb at h
  cases h1 : host_dma_cb_source dev.hd dev.period.size q.ov with
  | none => simp [h1] at h
  | some hd1 =>
    simp only [h1] at h
    cases h2 : host_dma_cb_sink hd1 dev.period.size q.ov with
    | none => simp [h2] at h
    | some hd2 =>
      simp only [h2] at h
      by_cases hp : hd2.host_pos = 0
      · simp [host_dma_cb_finish, hp] at h
      · obtain ⟨d, l, e, -, -, -, -, -, f6, -⟩ :=
          host_dma_cb_finish_frame { dev with hd := hd2 } q hp
        rw [h] at e
        simp only [Option.some.injEq, Prod.mk.injEq] at e
        obtain ⟨rfl, rfl⟩ := e
        rw [f6]

theorem host_copy_flight (dev : comp_dev) :
    (dev.hd.complete.complete = 0 →
      (host_copy dev).2.1 = dev ∧ (host_copy dev).2.2.count call.dma_start = 0) ∧
    (dev.hd.complete.complete ≠ 0 →
      ((host_copy dev).2.1.hd.complete.complete = 0 ∧
        (host_copy dev).2.2.count call.dma_start = 1) ∨
      ((host_copy dev).2.1 = dev ∧ (host_copy dev).2.2.count call.dma_start = 0)) := by
  unfold host_copy wait_is_completed wait_init
  constructor
  · intro h
    simp [h]
  · intro h
    by_cases hs : (if dev.hd.params.direction = STREAM_DIRECTION_PLAYBACK then dev.dma_buffer.free
          else dev.dma_buffer.avail) > dev.period.size
    · left
      simp [h, hs, List.count_cons]
    · right
      simp [h, hs]

theorem flight_invariant (s0 s : flight) (h0 : s0.pending = 0)
    (hc : s0.dev.hd.complete.complete ≠ 0) (hr : flight_reach s0 s) :
    s.pending = if s.dev.hd.complete.complete = 0 then 1 else 0 := by
  induction hr with
  | start => simp [h0, hc]
  | step s t _ hs ih =>
    cases hs with
    | copy =>
      obtain ⟨h1, h2⟩ := host_copy_flight s.dev
      by_cases hz : s.dev.hd.complete.complete = 0
      · obtain ⟨e1, e2⟩ := h1 hz
        simp only [e1, e2, ih, hz, if_true]
      · rcases h2 hz with ⟨e1, e2⟩ | ⟨e1, e2⟩
        · simp only [e1, e2, ih, hz, if_true, if_false]
        · simp only [e1, e2, ih, hz, if_false]
    | cb q dev1 log hp hcb =>
      have h1 := host_dma_cb_sets_complete _ _ _ _ hcb
      have hz : s.dev.hd.complete.complete = 0 := by
        by_contra hne
        rw [ih] at hp
        simp [hne] at hp
      simp only [h1, ih, hz, if_true]
      simp

/-- C13: from a state with no transfer in flight and the completion flag set,
every interleaving of `host_copy` calls and of completion callbacks of
transfers in flight keeps the number of transfers in flight at most 1, and at
0 whenever the completion flag is set. -/
theorem one_transfer_in_flight (s0 s : flight) (h0 : s0.pending = 0)
    (hc : s0.dev.hd.complete.complete ≠ 0) (hr : flight_reach s0 s) :
    s.pending ≤ 1 ∧ (s.dev.hd.complete.complete ≠ 0 → s.pending = 0) := by
  have h := flight_invariant s0 s h0 hc hr
  constructor
  · rw [h]; split <;> omega
  · intro hne
    rw [h]; simp [hne]

/-- C13 witness: on the prepared example engine a `host_copy` starts a transfer,
a second `host_copy` starts none, and the callback completes the first. -/
theorem one_transfer_in_flight_witness :
    (∃ s, flight_reach ⟨ex_prepared, 0⟩ s ∧ s.pending = 1 ∧ s.dev.hd.complete.complete = 0) ∧
    (∀ s, flight_reach ⟨ex_prepared, 0⟩ s →
      s.pending ≤ 1 ∧ (s.dev.hd.complete.complete ≠ 0 → s.pending = 0)) :=
  ⟨⟨_, flight_reach.step _ _ (flight_reach.step _ _ flight_reach.start (flight_step.copy _))
      (flight_step.copy _), by decide, by decide⟩,
    fun s hr => one_transfer_in_flight ⟨ex_prepared, 0⟩ s rfl (by decide) hr⟩

/-! ### C14: allocation failure in create_local_elems -/

theorem create_local_elems_loop_fails (rmalloc : Nat → Option dma_sg_elem)
    (direction base size i : Nat) (hint : i ≤ INT_MAX) (hfail : rmalloc i = none) (k : Nat) :
    ∀ j l, j ≤ i → i < j + k → (∀ m, j ≤ m → m < i → (rmalloc m).isSome) →
      create_local_elems_loop rmalloc direction base size k j l = some none := by
  induction k with
  | zero => intro j l h1 h2 _; omega
  | succ k ih =>
    intro j l h1 h2 hok
    by_cases hji : j = i
    · subst hji
      simp only [create_local_elems_loop, hfail]
    · have hlt : j < i := by omega
      obtain ⟨e, he⟩ := Option.isSome_iff_exists.mp (hok j (Nat.le_refl _) hlt)
      have hj1 : j + 1 ≤ INT_MAX := by omega
      simp only [create_local_elems_loop, he, hj1, if_true]
      exact ih (j + 1) _ (by omega) (by omega) (fun m hm1 hm2 => hok m (by omega) hm2)

/-- C14: when the size check of `host_params` passes and, for an `i` below the
period count that the `int` loop variable can hold, the allocations before
the `i`-th succeed and the `i`-th returns a null pointer,
`create_local_elems` and `host_params` return `-ENOMEM` and the local list is
empty afterwards, whatever it held before. -/
theorem host_params_alloc_failure (dev : comp_dev) (params : stream_params)
    (rmalloc : Nat → Option dma_sg_elem) (ov : overlays) (i : Nat)
    (hi : i < (negotiated_period dev params).number) (hint : i ≤ INT_MAX)
    (hsz : (negotiated_period dev params).size ≠ 0)
    (hdiv : dev.hd.host_size % (negotiated_period dev params).size = 0)
    (hok : ∀ j < i, (rmalloc j).isSome) (hfail : rmalloc i = none) :
    ∃ dev1, host_params dev params rmalloc ov = some (-ENOMEM, dev1) ∧
      create_local_elems (host_params_bind dev params) params rmalloc = some (-ENOMEM, dev1) ∧
      dev1.hd.loc.elem_list = [] ∧ dev1.hd.host = dev.hd.host := by
  have hloop := create_local_elems_loop_fails rmalloc params.direction
    (host_params_bind dev params).dma_buffer.self (negotiated_period dev params).size i hint hfail
    (negotiated_period dev params).number 0 (host_params_bind dev params).hd.loc
    (Nat.zero_le _) (by omega) (fun m _ hm => hok m hm)
  have hcl : create_local_elems (host_params_bind dev params) params rmalloc =
      some (-ENOMEM, { host_params_bind dev params with
        hd := { (host_params_bind dev params).hd with
          loc := list_free_all (host_params_bind dev params).hd.loc } }) := by
    simp only [create_local_elems, host_params_bind_period, hloop]
  refine ⟨_, ?_, hcl, rfl, (host_params_bind_hd dev params).1⟩
  unfold host_params
  simp only [host_params_bind_period, (host_params_bind_hd dev params).2.2.1, hsz, hdiv, if_false,
    ne_eq, not_true_eq_false, hcl]
  simp [ENOMEM]

/-- C14 witness: four periods are asked for and the third allocation fails; the
two segments built before it do not survive. -/
theorem host_params_alloc_failure_witness :
    ∃ dev1, host_params ex_host_4 ex_playback ex_rmalloc_third_fails ex_ov =
        some (-ENOMEM, dev1) ∧
      create_local_elems (host_params_bind ex_host_4 ex_playback) ex_playback
        ex_rmalloc_third_fails = some (-ENOMEM, dev1) ∧
      dev1.hd.loc.elem_list = [] ∧ dev1.hd.host = ex_host_4.hd.host :=
  host_params_alloc_failure ex_host_4 ex_playback ex_rmalloc_third_fails ex_ov 2
    (by decide) (by decide) (by decide) (by decide)
    (fun j hj => by
      have : ex_rmalloc_third_fails j = some ⟨0, 0, 0⟩ := by simp [ex_rmalloc_third_fails, hj]
      rw [this]; rfl)
    (by simp [ex_rmalloc_third_fails])

/-! ### C15: host_prepare and the host position pointer -/

theorem host_prepare_result (dev : comp_dev) (runs : Nat → wait_run irq)
    (ret : Int) (dev0 : comp_dev) (log : List call)
    (h : (if dev.hd.params.direction = STREAM_DIRECTION_PLAYBACK then
            host_preload dev (to_int (u32 (dev.period.number + 4294967295))) runs
          else some (0, dev, [])) = some (ret, dev0, log)) :
    host_prepare dev runs = some (ret, { dev0 with hd := { dev0.hd with host_pos := 0 } }, log) := by
  simp only [host_prepare, h]

/-- C15: whenever `host_prepare` returns, whatever the direction and whatever its
result, `host_pos` is null afterwards.  It does return when the direction is
not playback, and on a configured playback engine whose `host_pos` was set by
the position command both when every preload transfer completes (result 0)
and when one of them times out (result `-ETIME`); a `host_pos` that is null
already is enough when no completion callback runs. -/
theorem host_prepare_clears_host_pos (dev : comp_dev) (runs : Nat → wait_run irq) :
    (∀ ret dev1 log, host_prepare dev runs = some (ret, dev1, log) → dev1.hd.host_pos = 0) ∧
    (dev.hd.params.direction ≠ STREAM_DIRECTION_PLAYBACK →
      ∃ dev1, host_prepare dev runs = some (0, dev1, []) ∧ dev1.hd.host_pos = 0) ∧
    (configured dev → dev.hd.params.direction = STREAM_DIRECTION_PLAYBACK →
      1 ≤ dev.period.number → (dev.hd.host_pos ≠ 0 ∨ dev.period.number = 1) →
      (∀ i < dev.period.number - 1, run_completes (runs i)) →
      ∃ dev1 log, host_prepare dev runs = some (0, dev1, log) ∧ dev1.hd.host_pos = 0) ∧
    (configured dev → dev.hd.params.direction = STREAM_DIRECTION_PLAYBACK →
      ∀ i, i + 1 < dev.period.number → (dev.hd.host_pos ≠ 0 ∨ i = 0) →
      (∀ j < i, run_completes (runs j)) →
      run_times_out (runs i) →
      ∃ dev1 log, host_prepare dev runs = some (-ETIME, dev1, log) ∧ dev1.hd.host_pos = 0) := by
  refine ⟨?_, ?_, ?_, ?_⟩
  · intro ret dev1 log h
    unfold host_prepare at h
    simp only [] at h
    split at h
    · exact absurd h (by simp)
    · simp only [Option.some.injEq, Prod.mk.injEq] at h
      obtain ⟨-, rfl, -⟩ := h
      rfl
  · intro hd
    exact ⟨_, host_prepare_result dev runs 0 dev [] (by simp only [hd, if_false]), rfl⟩
  · intro hc hd hN hp hruns
    have hloop : ∃ dev0 log, host_preload_loop runs (dev.period.number - 1) 0 dev =
        some (0, dev0, log) := by
      rcases hp with hp | hp
      · obtain ⟨dev0, log, h1, -, -⟩ :=
          host_preload_loop_ok runs (dev.period.number - 1) 0 dev hc hp
            (fun j hj => by simpa using hruns j hj)
        exact ⟨dev0, log, h1⟩
      · rw [hp]
        exact ⟨dev, [], rfl⟩
    obtain ⟨dev0, log, h1⟩ := hloop
    exact ⟨_, log, host_prepare_result dev runs 0 dev0 log (by
      simp only [hd, if_true, host_preload, preload_count _ hN hc.2.2, Int.toNat_ofNat, h1]), rfl⟩
  · intro hc hd i hi hp hok hto
    obtain ⟨dev0, log, h1, -, -⟩ := host_preload_loop_timeout runs i (dev.period.number - 1) 0 dev
      hc hp (by omega) (fun j hj => by simpa using hok j hj) (by simpa using hto)
    exact ⟨_, log, host_prepare_result dev runs (-ETIME) dev0 log (by
      simp only [hd, if_true, host_preload, preload_count _ (by omega) hc.2.2, Int.toNat_ofNat,
        h1]), rfl⟩

/-- C15 witness: the position command stored 0x9000 in `host_pos`; after a
prepare whose three preload transfers complete, and after one whose third
transfer times out, `host_pos` is null. -/
theorem host_prepare_clears_host_pos_witness :
    ex_mapped.hd.host_pos = 0x9000 ∧
    (∃ dev1 log, host_prepare ex_mapped (fun _ => ex_run_ok) = some (0, dev1, log) ∧
      dev1.hd.host_pos = 0) ∧
    (∃ dev1 log, host_prepare ex_mapped ex_runs_third_fails = some (-ETIME, dev1, log) ∧
      dev1.hd.host_pos = 0) :=
  ⟨ex_mapped_configured.2,
    (host_prepare_clears_host_pos ex_mapped (fun _ => ex_run_ok)).2.2.1 ex_mapped_configured.1
      (by rfl) (by decide) (Or.inl (by decide)) (fun _ _ => ex_run_ok_completes),
    (host_prepare_clears_host_pos ex_mapped ex_runs_third_fails).2.2.2 ex_mapped_configured.1
      (by rfl) 2 (by decide) (Or.inl (by decide))
      (fun j hj => by
        have : ex_runs_third_fails j = ex_run_ok := by simp [ex_runs_third_fails, hj]
        rw [this]; exact ex_run_ok_completes)
      (by
        have : ex_runs_third_fails 2 = ex_run_timeout := by simp [ex_runs_third_fails]
        rw [this]; exact ex_run_timeout_times_out)⟩

/-! ### C17: the size check of host_params as the code documents it -/

theorem host_params_setup_ret (dev : comp_dev) (ov : overlays) (ret : Int) (dev1 : comp_dev)
    (h : host_params_setup dev ov = some (ret, dev1)) : ret = 0 := by
  simp only [host_params_setup, Option.bind_eq_bind, Option.bind_eq_some, Option.some.injEq,
    Prod.mk.injEq] at h
  obtain ⟨_, _, _, _, _, _, _, _, h1, -⟩ := h
  exact h1.symm

theorem create_local_elems_ret (dev : comp_dev) (params : stream_params)
    (rmalloc : Nat → Option dma_sg_elem) (ret : Int) (dev1 : comp_dev)
    (h : create_local_elems dev params rmalloc = some (ret, dev1)) : ret = 0 ∨ ret = -ENOMEM := by
  unfold create_local_elems at h
  split at h
  · exact absurd h (by simp)
  · simp only [Option.some.injEq, Prod.mk.injEq] at h
    exact Or.inl h.1.symm
  · simp only [Option.some.injEq, Prod.mk.injEq] at h
    exact Or.inr h.1.symm

/-- C17: for every engine state and direction with a period size above zero,
`host_params` returns `-EINVAL` if and only if the period size is not a divisor
of the recorded host segment size, `host_size mod period_size` is not zero.
It then returns before any allocation, whatever the allocator would do, and
the state it leaves differs from the state before the call only in what the
binding of parameters and pointers wrote: both lists, `host_size`, the local
descriptor with the DMA configuration, the completion object, `host_pos` and
the read and write pointers of both buffers are as before. -/
theorem host_params_einval_iff (dev : comp_dev) (params : stream_params)
    (rmalloc : Nat → Option dma_sg_elem) (ov : overlays)
    (hp : 0 < (negotiated_period dev params).size) :
    ((∃ dev1, host_params dev params rmalloc ov = some (-EINVAL, dev1)) ↔
      dev.hd.host_size % (negotiated_period dev params).size ≠ 0) ∧
    (dev.hd.host_size % (negotiated_period dev params).size ≠ 0 →
      ∀ rmalloc1 ov1, host_params dev params rmalloc1 ov1 =
        some (-EINVAL, host_params_bind dev params)) ∧
    ((host_params_bind dev params).hd.host = dev.hd.host ∧
      (host_params_bind dev params).hd.loc = dev.hd.loc ∧
      (host_params_bind dev params).hd.host_size = dev.hd.host_size ∧
      (host_params_bind dev params).hd.config = dev.hd.config ∧
      (host_params_bind dev params).hd.complete = dev.hd.complete ∧
      (host_params_bind dev params).hd.host_pos = dev.hd.host_pos ∧
      (host_params_bind dev params).bsink.r_ptr = dev.bsink.r_ptr ∧
      (host_params_bind dev params).bsink.w_ptr = dev.bsink.w_ptr ∧
      (host_params_bind dev params).bsource.r_ptr = dev.bsource.r_ptr ∧
      (host_params_bind dev params).bsource.w_ptr = dev.bsource.w_ptr) := by
  have hp0 : (negotiated_period dev params).size ≠ 0 := Nat.pos_iff_ne_zero.mp hp
  obtain ⟨b1, b2, b3, -, b5, b6, b7⟩ := host_params_bind_hd dev params
  have hbad : dev.hd.host_size % (negotiated_period dev params).size ≠ 0 →
      ∀ rmalloc1 ov1, host_params dev params rmalloc1 ov1 =
        some (-EINVAL, host_params_bind dev params) := by
    intro hm rmalloc1 ov1
    unfold host_params
    simp only [host_params_bind_period, b3, hp0, hm, if_false, ne_eq, not_false_eq_true, if_true]
  refine ⟨⟨?_, fun hm => ⟨_, hbad hm rmalloc ov⟩⟩, hbad, b1, b2, b3, b5, b6, b7, ?_⟩
  · rintro ⟨dev1, h⟩ hm
    unfold host_params at h
    simp only [host_params_bind_period, b3, hp0, hm, if_false, ne_eq, not_true_eq_false] at h
    cases hcl : create_local_elems (host_params_bind dev params) params rmalloc with
    | none => simp [hcl] at h
    | some r =>
      obtain ⟨err, dev2⟩ := r
      simp only [hcl] at h
      rcases create_local_elems_ret _ _ _ _ _ hcl with he | he
      · subst he
        simp only [lt_self_iff_false, if_false] at h
        have := host_params_setup_ret _ _ _ _ h
        simp [EINVAL] at this
      · subst he
        simp [ENOMEM, EINVAL] at h
  · unfold host_params_bind
    split <;> simp [comp_set_sink_params]

/-- C17 witness: a period of 512 bytes; a host segment size of 768 bytes is
refused before any allocation, one of 1024 bytes is not refused. -/
theorem host_params_einval_iff_witness :
    host_params ex_host_768 ex_playback ex_rmalloc_third_fails ex_ov =
      some (-EINVAL, host_params_bind ex_host_768 ex_playback) ∧
    ¬ ∃ dev1, host_params ex_host_1024 ex_playback ex_rmalloc ex_ov = some (-EINVAL, dev1) :=
  ⟨(host_params_einval_iff ex_host_768 ex_playback ex_rmalloc ex_ov (by decide)).2.1 (by decide)
      ex_rmalloc_third_fails ex_ov,
    fun h => (host_params_einval_iff ex_host_1024 ex_playback ex_rmalloc ex_ov (by decide)).1.mp h
      (by decide)⟩

/-! ### C20: the sink side of host_dma_cb -/

theorem host_params_ok_inv (dev : comp_dev) (params : stream_params)
    (rmalloc : Nat → Option dma_sg_elem) (ov : overlays) (dev1 : comp_dev)
    (h : host_params dev params rmalloc ov = some (0, dev1)) :
    ∃ l, create_local_elems_loop rmalloc params.direction
        (host_params_bind dev params).dma_buffer.self (negotiated_period dev params).size
        (negotiated_period dev params).number 0 (host_params_bind dev params).hd.loc =
          some (some l) ∧
      host_params_setup { host_params_bind dev params with
        hd := { (host_params_bind dev params).hd with loc := l } } ov = some (0, dev1) := by
  unfold host_params at h
  simp only [] at h
  split at h
  · exact absurd h (by simp)
  split at h
  · simp [EINVAL] at h
  cases hcl : create_local_elems (host_params_bind dev params) params rmalloc with
  | none => simp [hcl] at h
  | some r =>
    obtain ⟨err, dev2⟩ := r
    simp only [hcl] at h
    unfold create_local_elems at hcl
    rw [host_params_bind_period] at hcl
    cases hloop : create_local_elems_loop rmalloc params.direction
        (host_params_bind dev params).dma_buffer.self (negotiated_period dev params).size
        (negotiated_period dev params).number 0 (host_params_bind dev params).hd.loc with
    | none => simp [hloop] at hcl
    | some o =>
      cases o with
      | none =>
        simp only [hloop, Option.some.injEq, Prod.mk.injEq] at hcl
        obtain ⟨rfl, rfl⟩ := hcl
        simp [ENOMEM] at h
      | some l =>
        simp only [hloop, Option.some.injEq, Prod.mk.injEq] at hcl
        obtain ⟨rfl, rfl⟩ := hcl
        simp only [lt_self_iff_false, if_false] at h
        exact ⟨l, rfl, h⟩

theorem host_params_bind_refs (dev : comp_dev) (params : stream_params) :
    (host_params_bind dev params).hd.source ≠ (host_params_bind dev params).hd.sink ∧
      (host_params_bind dev params).dma_buffer.self = (negotiated_buffer dev params).self ∧
      (host_params_bind dev params).dma_buffer.addr = (negotiated_buffer dev params).addr ∧
      (params.direction = STREAM_DIRECTION_PLAYBACK →
        (host_params_bind dev params).hd.source = .host ∧
        (host_params_bind dev params).hd.sink = .loc) ∧
      (params.direction ≠ STREAM_DIRECTION_PLAYBACK →
        (host_params_bind dev params).hd.source = .loc ∧
        (host_params_bind dev params).hd.sink = .host) := by
  unfold host_params_bind negotiated_buffer
  split <;> simp_all [comp_set_sink_params, comp_dev.dma_buffer]

theorem host_params_setup_spec (dev : comp_dev) (ov : overlays)
    (hs : dev.hd.source ≠ dev.hd.sink) :
    ∃ dev1 ps es pk ek, host_params_setup dev ov = some (0, dev1) ∧
      list_first_entry (dev.hd.hc dev.hd.source).elem_list .head = some ps ∧
      elem_at (dev.hd.hc dev.hd.source).elem_list (ov.of dev.hd.source) ps = some es ∧
      list_first_entry (dev.hd.hc dev.hd.sink).elem_list .head = some pk ∧
      elem_at (dev.hd.hc dev.hd.sink).elem_list (ov.of dev.hd.sink) pk = some ek ∧
      dev1.hd.source = dev.hd.source ∧ dev1.hd.sink = dev.hd.sink ∧
      dev1.hd.hc dev.hd.source =
        ⟨(dev.hd.hc dev.hd.source).elem_list, ps, u32 (es.dest + es.size)⟩ ∧
      dev1.hd.hc dev.hd.sink = ⟨(dev.hd.hc dev.hd.sink).elem_list, pk, u32 (ek.dest + ek.size)⟩ ∧
      dev1.hd.config.elem = ⟨es.src, ek.dest, dev.period.size⟩ ∧
      dev1.period = dev.period ∧
      dev1.dma_buffer.r_ptr = dev.dma_buffer.addr ∧ dev1.dma_buffer.w_ptr = dev.dma_buffer.addr := by
  obtain ⟨hd, bsink, bsource⟩ := dev
  obtain ⟨config, complete, period, dma_buffer, host, loc, host_size, host_pos, source, sink,
    params⟩ := hd
  obtain ⟨ph, eh, hph, heh, -⟩ := first_entry_valid host ov.host
  obtain ⟨pl, el, hpl, hel, -⟩ := first_entry_valid loc ov.loc
  cases source <;> cases sink
  · exact absurd rfl hs
  · cases dma_buffer <;> cases period <;> rename_i b <;> cases b <;>
      simp only [host_params_setup, host_data.hc, host_data.set_hc, overlays.of, hph, heh, hpl, hel,
        comp_dev.set_dma_buffer, comp_dev.dma_buffer,
        Option.bind_eq_bind, Option.some_bind, Option.pure_def, bind_pure_comp] <;>
      exact ⟨_, ph, eh, pl, el, rfl, rfl, heh, rfl, hel, rfl, rfl, rfl, rfl, rfl, rfl, rfl, rfl⟩
  · cases dma_buffer <;> cases period <;> rename_i b <;> cases b <;>
      simp only [host_params_setup, host_data.hc, host_data.set_hc, overlays.of, hph, heh, hpl, hel,
        comp_dev.set_dma_buffer, comp_dev.dma_buffer,
        Option.bind_eq_bind, Option.some_bind, Option.pure_def, bind_pure_comp] <;>
      exact ⟨_, pl, el, ph, eh, rfl, rfl, hel, rfl, heh, rfl, rfl, rfl, rfl, rfl, rfl, rfl, rfl⟩
  · exact absurd rfl hs

theorem first_entry_head (l : List dma_sg_elem) (ov e : dma_sg_elem) (h : l.head? = some e) :
    list_first_entry l .head = some (.item 0) ∧ elem_at l ov (.item 0) = some e := by
  cases l with
  | nil => simp at h
  | cons a t =>
    simp only [List.head?_cons, Option.some.injEq] at h
    subst h
    simp [list_first_entry, list_next, elem_at]

theorem local_slice_fields (rmalloc : Nat → Option dma_sg_elem) (direction base size i : Nat) :
    (local_slice rmalloc direction base size i).size = size ∧
      (if direction = STREAM_DIRECTION_PLAYBACK then
          (local_slice rmalloc direction base size i).dest
        else (local_slice rmalloc direction base size i).src) = u32 (base + u32 (i * size)) := by
  unfold local_slice
  split <;> simp_all

theorem create_local_elems_loop_list (rmalloc : Nat → Option dma_sg_elem)
    (direction base size : Nat) (k : Nat) :
    ∀ j l l1, create_local_elems_loop rmalloc direction base size k j l = some (some l1) →
      l1.elem_list =
        ((List.range k).map (fun m => local_slice rmalloc direction base size (j + m))).reverse ++
          l.elem_list := by
  induction k with
  | zero =>
    intro j l l1 h
    simp only [create_local_elems_loop, Option.some.injEq] at h
    subst h
    simp
  | succ k ih =>
    intro j l l1 h
    simp only [create_local_elems_loop] at h
    cases hr : rmalloc j with
    | none => simp [hr] at h
    | some e =>
      simp only [hr] at h
      by_cases hj : j + 1 ≤ INT_MAX
      · simp only [hj, if_true] at h
        rw [ih _ _ _ h, List.range_succ_eq_map]
        have hslice : local_slice rmalloc direction base size j =
            (let e1 : dma_sg_elem :=
              if direction = STREAM_DIRECTION_PLAYBACK then
                { e with dest := u32 (base + u32 (j * size)) }
              else { e with src := u32 (base + u32 (j * size)) }
             { e1 with size := size }) := by
          simp [local_slice, hr]
        simp only [List.map_cons, List.map_map, List.reverse_cons, List.append_assoc,
          List.singleton_append, list_add, Nat.add_zero, hslice]
        congr 2
        apply List.map_congr_left
        intro m _
        simp only [Function.comp, Nat.succ_eq_add_one]
        congr 1
        omega
      · simp [hj] at h

/-! ### C18: cursors, end markers and local descriptor after host_params -/

/-- C18 (what the code does): after a successful `host_params` whose source and
sink lists are not empty, both cursors are on the first segment, the local
descriptor has the source of the first source segment, the destination of
the first sink segment and the period size, and `sink->current_end` is the
destination of the first sink segment plus its size; `source->current_end`,
however, is the destination of the first source segment plus its size, not
its source plus its size. -/
theorem host_params_end_markers (dev : comp_dev) (params : stream_params)
    (rmalloc : Nat → Option dma_sg_elem) (ov : overlays) (dev1 : comp_dev)
    (h : host_params dev params rmalloc ov = some (0, dev1)) (es ek : dma_sg_elem)
    (h1 : (dev1.hd.hc dev1.hd.source).elem_list.head? = some es)
    (h2 : (dev1.hd.hc dev1.hd.sink).elem_list.head? = some ek) :
    (dev1.hd.hc dev1.hd.source).current = .item 0 ∧
    (dev1.hd.hc dev1.hd.source).current_end = u32 (es.dest + es.size) ∧
    (dev1.hd.hc dev1.hd.sink).current = .item 0 ∧
    (dev1.hd.hc dev1.hd.sink).current_end = u32 (ek.dest + ek.size) ∧
    dev1.hd.config.elem = ⟨es.src, ek.dest, dev1.period.size⟩ := by
  obtain ⟨l, -, hsetup⟩ := host_params_ok_inv dev params rmalloc ov dev1 h
  have hsrc : ({ host_params_bind dev params with
      hd := { (host_params_bind dev params).hd with loc := l } } : comp_dev).hd.source ≠
      ({ host_params_bind dev params with
      hd := { (host_params_bind dev params).hd with loc := l } } : comp_dev).hd.sink :=
    (host_params_bind_refs dev params).1
  obtain ⟨dev0, ps, es0, pk, ek0, e0, f1, f2, f3, f4, g1, g2, g3, g4, g5, g6, -, -⟩ :=
    host_params_setup_spec _ ov hsrc
  rw [e0] at hsetup
  simp only [Option.some.injEq, Prod.mk.injEq, true_and] at hsetup
  subst hsetup
  rw [g1, g3] at h1
  rw [g2, g4] at h2
  obtain ⟨a1, a2⟩ := first_entry_head _ (ov.of _) es h1
  obtain ⟨b1, b2⟩ := first_entry_head _ (ov.of _) ek h2
  rw [a1] at f1
  rw [b1] at f3
  simp only [Option.some.injEq] at f1 f3
  subst f1 f3
  rw [a2] at f2
  rw [b2] at f4
  simp only [Option.some.injEq] at f2 f4
  subst f2 f4
  rw [g1, g2, g3, g4, g5, g6]
  exact ⟨rfl, rfl, rfl, rfl, rfl⟩

/-- C18 witness: playback over four host segments at 0x10000, 0x20000, 0x30000,
0x40000 with destination field 0.  `source->current_end` is 512 where the
first source segment ends at 0x10200. -/
theorem host_params_end_markers_witness :
    ex_configured.hd.source = .host ∧ ex_configured.hd.sink = .loc ∧
    ex_configured.hd.host.elem_list.head? = some ⟨0x10000, 0, 512⟩ ∧
    ex_configured.hd.host.current = .item 0 ∧
    ex_configured.hd.host.current_end = 512 ∧
    ex_configured.hd.loc.elem_list.head? = some ⟨0, 0x2600, 512⟩ ∧
    ex_configured.hd.loc.current = .item 0 ∧
    ex_configured.hd.loc.current_end = 0x2800 ∧
    ex_configured.hd.config.elem = ⟨0x10000, 0x2600, 512⟩ :=
  have h := host_params_end_markers ex_host_4 ex_playback ex_rmalloc ex_ov ex_configured
    ex_configured_eq ⟨0x10000, 0, 512⟩ ⟨0, 0x2600, 512⟩ (by rfl) (by rfl)
  ⟨by rfl, by rfl, by rfl, h.1, h.2.1, by rfl, h.2.2.1, h.2.2.2.1, h.2.2.2.2⟩

/-! ### C19: order of the local list -/

/-- C19 (what the code does): after a successful `host_params` that started from
an empty local list, with period count `N` and period size `S`, the local
list has `N` segments of size `S`, and the segment at position `k` of the list
(position 0 is the first entry, from which the local descriptor is primed)
has the address, destination for playback and source otherwise, of slice
`N - 1 - k`, counted from the address of the buffer's control structure: the
list is in reverse slice order. -/
theorem host_params_local_order (dev : comp_dev) (params : stream_params)
    (rmalloc : Nat → Option dma_sg_elem) (ov : overlays) (dev1 : comp_dev)
    (h : host_params dev params rmalloc ov = some (0, dev1))
    (hempty : dev.hd.loc.elem_list = []) :
    dev1.hd.loc.elem_list.length = (negotiated_period dev params).number ∧
    ∀ k, k < (negotiated_period dev params).number →
      ∃ e, dev1.hd.loc.elem_list[k]? = some e ∧ e.size = (negotiated_period dev params).size ∧
        (if params.direction = STREAM_DIRECTION_PLAYBACK then e.dest else e.src) =
          u32 ((negotiated_buffer dev params).self +
            u32 (((negotiated_period dev params).number - 1 - k) *
              (negotiated_period dev params).size)) := by
  obtain ⟨l, hloop, hsetup⟩ := host_params_ok_inv dev params rmalloc ov dev1 h
  have hlist := create_local_elems_loop_list _ _ _ _ _ _ _ _ hloop
  rw [(host_params_bind_hd dev params).2.1, hempty, List.append_nil] at hlist
  simp only [Nat.zero_add] at hlist
  obtain ⟨hne, hself, -, hpb, hcap⟩ := host_params_bind_refs dev params
  have hsrc : ({ host_params_bind dev params with
      hd := { (host_params_bind dev params).hd with loc := l } } : comp_dev).hd.source ≠
      ({ host_params_bind dev params with
      hd := { (host_params_bind dev params).hd with loc := l } } : comp_dev).hd.sink := hne
  obtain ⟨dev0, ps, es0, pk, ek0, e0, -, -, -, -, -, -, g3, g4, -, -, -, -⟩ :=
    host_params_setup_spec _ ov hsrc
  rw [e0] at hsetup
  simp only [Option.some.injEq, Prod.mk.injEq, true_and] at hsetup
  subst hsetup
  have hloc : dev0.hd.loc.elem_list = l.elem_list := by
    by_cases hd : params.direction = STREAM_DIRECTION_PLAYBACK
    · have hk : ({ host_params_bind dev params with
          hd := { (host_params_bind dev params).hd with loc := l } } : comp_dev).hd.sink = .loc :=
        (hpb hd).2
      rw [hk] at g4
      show (dev0.hd.hc .loc).elem_list = _
      rw [g4]
      rfl
    · have hk : ({ host_params_bind dev params with
          hd := { (host_params_bind dev params).hd with loc := l } } : comp_dev).hd.source = .loc :=
        (hcap hd).1
      rw [hk] at g3
      show (dev0.hd.hc .loc).elem_list = _
      rw [g3]
      rfl
  rw [hloc, hlist, hself]
  refine ⟨by simp, ?_⟩
  intro k hk
  refine ⟨local_slice rmalloc params.direction (negotiated_buffer dev params).self
    (negotiated_period dev params).size ((negotiated_period dev params).number - 1 - k), ?_,
    (local_slice_fields _ _ _ _ _).1, (local_slice_fields _ _ _ _ _).2⟩
  rw [List.getElem?_reverse (by simpa using hk)]
  simp only [List.length_map, List.length_range]
  rw [List.getElem?_map, List.getElem?_range (by omega)]
  rfl

/-- C19 witness: four periods of 512 bytes on a buffer whose control structure
lies at 0x2000 and whose data area lies at 0x8000.  The first entry of the
local list, and with it the first transfer, has destination 0x2600, slice 3
counted from the control structure; the slice at offset 0 is the last
entry.  For capture, on the source buffer whose control structure lies at
0x3000, the sources are in reverse order likewise. -/
theorem host_params_local_order_witness :
    (∀ k, k < 4 → ∃ e, ex_configured.hd.loc.elem_list[k]? = some e ∧ e.size = 512 ∧
      e.dest = u32 (0x2000 + u32 ((4 - 1 - k) * 512))) ∧
    ex_configured.hd.loc.elem_list.map (fun e => e.dest) = [0x2600, 0x2400, 0x2200, 0x2000] ∧
    ex_configured.hd.config.elem.dest = 0x2600 ∧
    ex_configured.bsink.addr = 0x8000 ∧
    (host_params ex_host_4 ex_capture ex_rmalloc ex_ov).map
        (fun r => (r.1, r.2.hd.loc.elem_list.map (fun e => e.src), r.2.hd.config.elem.src)) =
      some (0, [0x3600, 0x3400, 0x3200, 0x3000], 0x3600) :=
  ⟨(host_params_local_order ex_host_4 ex_playback ex_rmalloc ex_ov ex_configured
      ex_configured_eq rfl).2, by rfl, by rfl, by rfl, by rfl⟩

/-! ### C16: end markers and the offsets of the local descriptor -/

/-- C16 (code at the failing input): the configured example engine, on which the
position command has set `host_pos` to `0x9000` and changed nothing else, and
its states after one, two and three callbacks, each as
`source->current_end`, source of the local descriptor, `sink->current_end`,
destination of the local descriptor.  No sum overflows 32 bits.  Right after
`host_params` the source end marker 512 is below the source 0x10000; after
every callback the sink end marker 512 is below the destination. -/
theorem end_marker_example :
    host_params ex_host_4 ex_playback ex_rmalloc ex_ov = some (0, ex_configured) ∧
    ((ex_configured.hd.hc ex_configured.hd.source).current_end,
      ex_configured.hd.config.elem.src) = (512, 0x10000) ∧
    ex_mapped = { ex_configured with hd := { ex_configured.hd with host_pos := 0x9000 } } ∧
    (List.range 4).map (fun k => (host_dma_cb_n ex_irq k ex_mapped).map
        (fun d => ((d.hd.hc d.hd.source).current_end, d.hd.config.elem.src,
          (d.hd.hc d.hd.sink).current_end, d.hd.config.elem.dest))) =
      [some (512, 0x10000, 0x2800, 0x2600), some (0x20200, 0x20000, 512, 0x2400),
       some (0x30200, 0x30000, 512, 0x2200), some (0x40200, 0x40000, 512, 0x2000)] := by
  refine ⟨?_, ?_, ?_, ?_⟩ <;> rfl

/-! ### C21: poll_for_completion_delay -/

theorem poll_loop_spec (run : Nat → List wait_irq) (delta : Nat) (tries : Nat) :
    ∀ i c, ∃ n, n ≤ tries ∧
      (∀ j, j < n → (served run i c j).complete = 0) ∧
      poll_loop run delta tries i c =
        (if (served run i c n).complete ≠ 0 then 0 else - EIO, served run i c n,
          poll_rounds delta n ++ [poll_event.check (served run i c n).complete]) ∧
      ((served run i c n).complete = 0 → n = tries) := by
  induction tries with
  | zero =>
    intro i c
    refine ⟨0, Nat.le_refl _, fun j hj => absurd hj (Nat.not_lt_zero j), ?_, fun _ => rfl⟩
    simp only [poll_loop, wait_is_completed, served, poll_rounds, List.replicate_zero,
      List.flatten_nil, List.nil_append]
    split <;> rfl
  | succ t ih =>
    intro i c
    by_cases hc : c.complete = 0
    · obtain ⟨n, hn, hz, hl, hT⟩ := ih (i + 1) (serve (run i) c)
      refine ⟨n + 1, Nat.succ_le_succ hn, ?_, ?_, ?_⟩
      · intro j hj
        cases j with
        | zero => exact hc
        | succ j => exact hz j (Nat.lt_of_succ_lt_succ hj)
      · simp only [poll_loop, wait_is_completed, hc, ne_eq, not_true_eq_false, if_false, hl, served,
          poll_rounds, List.replicate_succ, List.flatten_cons, List.cons_append, List.nil_append]
      · intro h0
        rw [hT h0]
    · refine ⟨0, Nat.zero_le _, fun j hj => absurd hj (Nat.not_lt_zero j), ?_,
        fun h0 => absurd h0 hc⟩
      simp only [poll_loop, wait_is_completed, ne_eq, hc, not_false_eq_true, if_true, served,
        poll_rounds, List.replicate_zero, List.flatten_nil, List.nil_append]

theorem served_silent (run : Nat → List wait_irq) (hs : ∀ i, run i = []) (n : Nat) :
    ∀ i c, served run i c n = c := by
  induction n with
  | zero => intro i c; rfl
  | succ n ih =>
    intro i c
    simp only [served, hs i, serve, List.foldl_nil, ih]

/-- C21: the loop starts with `T = 8` tries and `delta = tick / 8`, or with
`T = 1` and `delta = us` when `tick / 8` is 0.  For every completion object
and every run there is a number `n` of delays, at most `T`, such that the
function makes `n + 1` checks of the completion flag with exactly one
`wait_delay(delta)` between consecutive checks and nothing else; the first
`n` checks see the flag unset.  It returns 0 if and only if the last check
sees the flag set, and `-EIO` if and only if it does not, which happens only
after exactly `T` delays, that is when none of `T + 1` checks sees the flag
set.  The completion object it leaves is the one the interrupt handlers
left: the function writes nothing to it, and without handlers it is
unchanged. -/
theorem poll_for_completion_delay_spec (comp : completion_t) (us ticks_per_ms : Nat)
    (run : Nat → List wait_irq) :
    ((poll_tick ticks_per_ms us / 8 ≠ 0 →
        poll_tries ticks_per_ms us = 8 ∧
        poll_delta ticks_per_ms us = poll_tick ticks_per_ms us / 8) ∧
      (poll_tick ticks_per_ms us / 8 = 0 →
        poll_tries ticks_per_ms us = 1 ∧ poll_delta ticks_per_ms us = us)) ∧
    (∃ n, n ≤ poll_tries ticks_per_ms us ∧
      (∀ j, j < n → (served run 0 comp j).complete = 0) ∧
      (poll_for_completion_delay comp us ticks_per_ms run).2.2 =
        poll_rounds (poll_delta ticks_per_ms us) n ++
          [poll_event.check (served run 0 comp n).complete] ∧
      (poll_for_completion_delay comp us ticks_per_ms run).2.1 = served run 0 comp n ∧
      ((poll_for_completion_delay comp us ticks_per_ms run).1 = 0 ↔
        (served run 0 comp n).complete ≠ 0) ∧
      ((poll_for_completion_delay comp us ticks_per_ms run).1 = - EIO ↔
        (served run 0 comp n).complete = 0) ∧
      ((served run 0 comp n).complete = 0 → n = poll_tries ticks_per_ms us)) ∧
    ((∀ i, run i = []) → (poll_for_completion_delay comp us ticks_per_ms run).2.1 = comp) := by
  refine ⟨⟨?_, ?_⟩, ?_, ?_⟩
  · intro h
    simp [poll_tries, poll_delta, DEFAULT_TRY_TIMES, h]
  · intro h
    simp [poll_tries, poll_delta, DEFAULT_TRY_TIMES, h]
  · obtain ⟨n, hn, hz, hl, hT⟩ :=
      poll_loop_spec run (poll_delta ticks_per_ms us) (poll_tries ticks_per_ms us) 0 comp
    refine ⟨n, hn, hz, ?_, ?_, ?_, ?_, hT⟩
    · simp only [poll_for_completion_delay, hl]
    · simp only [poll_for_completion_delay, hl]
    · simp only [poll_for_completion_delay, hl]
      by_cases h0 : (served run 0 comp n).complete = 0 <;> simp [h0, EIO]
    · simp only [poll_for_completion_delay, hl]
      by_cases h0 : (served run 0 comp n).complete = 0 <;> simp [h0, EIO]
  · intro hs
    obtain ⟨n, -, -, hl, -⟩ :=
      poll_loop_spec run (poll_delta ticks_per_ms us) (poll_tries ticks_per_ms us) 0 comp
    simp only [poll_for_completion_delay, hl, served_silent run hs]

/-- C21 witness: 19200 ticks per millisecond and 1000 microseconds give 8 tries
and a delay of 2400 ticks.  When the completion is signalled during the
third delay, the fourth check sees it and the result is 0 after three delays;
when nothing is signalled, the result is `-EIO` after nine checks and eight
delays and the completion object is as before.  One tick per millisecond and 3
microseconds give one try and a delay of 3. -/
theorem poll_for_completion_delay_spec_witness :
    (poll_tries 19200 1000 = 8 ∧ poll_delta 19200 1000 = 2400) ∧
    (poll_tries 1 3 = 1 ∧ poll_delta 1 3 = 3) ∧
    poll_for_completion_delay ⟨0, 0⟩ 1000 19200 ex_poll_signalled =
      (0, ⟨1, 0⟩, poll_rounds 2400 3 ++ [poll_event.check 1]) ∧
    poll_for_completion_delay ⟨0, 0⟩ 1000 19200 ex_poll_silent =
      (- EIO, ⟨0, 0⟩, poll_rounds 2400 8 ++ [poll_event.check 0]) ∧
    poll_for_completion_delay ⟨0, 0⟩ 3 1 ex_poll_silent =
      (- EIO, ⟨0, 0⟩, poll_rounds 3 1 ++ [poll_event.check 0]) :=
  ⟨(poll_for_completion_delay_spec ⟨0, 0⟩ 1000 19200 ex_poll_silent).1.1 (by decide),
    (poll_for_completion_delay_spec ⟨0, 0⟩ 3 1 ex_poll_silent).1.2 (by decide),
    by rfl, by rfl, by rfl⟩

end Sof
